import Mathlib

/-!
Verification of the plot-builder models of `bluesky_widgets`
(`bluesky_widgets/models/plot_builders.py`): the `RecentLines`
run-registry state machine with pin-aware FIFO eviction, deferred
activation and completion recoloring, the `Image` middle-slice
dimensional collapse, and the `RasteredImage` snake-scan raster
reconstruction with axis-orientation properties.

Python mutable state is embedded as explicit state records; statements
that can raise are embedded as functions returning the mutated state
together with an optional error (mutations performed before a raise
persist, and a raise aborts the remaining statements of every caller).
-/

deriving instance DecidableEq for Except

namespace BW

/-- Python exception kinds raised by the modelled code paths. -/
inductive PyErr where
  | keyError
  | indexError
  | valueError
  | typeError
deriving DecidableEq

/-- External BlueskyRun handle as seen through the events that reach the
model: its `metadata.start.uid`, its `metadata.start.scan_id`, the data
streams available on it at the moment of the event, and whether
`run_is_live_and_not_completed(run)` is true at that moment. -/
structure Run where
  uid : Nat
  scanId : Nat
  streams : List String
  live : Bool
deriving DecidableEq

/-- A `LineSpec` element as far as `RecentLines` observes it: its uuid, the
uid of its source run, its label and its mutable style (color,
`linestyle="dashed"` flag). -/
structure Line where
  uuid : Nat
  runUid : Nat
  label : String
  color : String
  dashed : Bool
deriving DecidableEq

/-- The value of `next(self._color_cycle)` where the cycle is
`itertools.cycle(f"C{i}" for i in range(10))`: the value produced after
`i` previous draws. -/
def colorName (i : Nat) : String := "C" ++ toString (i % 10)

/-- Python `set.add`: append the element only when it is absent (the model
keeps Python sets as duplicate-free lists). -/
def setInsert (l : List Nat) (x : Nat) : List Nat :=
  if x ∈ l then l else l ++ [x]

/-- Python `set.discard`: remove the element if present. -/
def setRemove (l : List Nat) (x : Nat) : List Nat :=
  l.filter (fun y => y ≠ x)

/-- Lookup in the `_runs_to_lines` mapping (uid → set of line uuids,
a `defaultdict(set)` embedded as an association list). -/
def rtlLookup (m : List (Nat × List Nat)) (u : Nat) : Option (List Nat) :=
  match m with
  | [] => none
  | (k, v) :: rest => if k = u then some v else rtlLookup rest u

/-- Whether `_runs_to_lines` currently stores an entry for `u`. -/
def rtlHas (m : List (Nat × List Nat)) (u : Nat) : Bool :=
  (rtlLookup m u).isSome

/-- Embeds `self._runs_to_lines[uid].add(uuid)`: `defaultdict.__getitem__`
creates a fresh empty set when the key is missing, then the uuid is added
to the set. -/
def rtlAdd (m : List (Nat × List Nat)) (u uuid : Nat) : List (Nat × List Nat) :=
  match m with
  | [] => [(u, [uuid])]
  | (k, v) :: rest =>
      if k = u then (k, setInsert v uuid) :: rest
      else (k, v) :: rtlAdd rest u uuid

/-- Embeds `self._runs_to_lines.pop(uid)` with no default: `dict.pop` does not
consult the defaultdict factory, so a missing key means `KeyError`
(`none` here). -/
def rtlPop (m : List (Nat × List Nat)) (u : Nat) :
    Option (List Nat × List (Nat × List Nat)) :=
  match m with
  | [] => none
  | (k, v) :: rest =>
      if k = u then some (v, rest)
      else
        match rtlPop rest u with
        | none => none
        | some (v', m') => some (v', (k, v) :: m')

/-- Embeds `line_uuids = self._runs_to_lines[uid]` on the `defaultdict`: returns
the stored set, inserting a fresh empty set when the key is missing. -/
def rtlGetDefault (m : List (Nat × List Nat)) (u : Nat) :
    List Nat × List (Nat × List Nat) :=
  match m with
  | [] => ([], [(u, [])])
  | (k, v) :: rest =>
      if k = u then (v, (k, v) :: rest)
      else
        let p := rtlGetDefault rest u
        (p.1, (k, v) :: p.2)

/-- Embeds `set(self.needs_streams).issubset(set(list(run)))`. -/
def needsSubset (needs streams : List String) : Bool :=
  needs.all (fun n => streams.contains n)

/-- The mutable state of one `RecentLines` model: its configuration
(`max_runs`, `x`, `ys`, `needs_streams`), the `RunList` registry (run
uids in arrival order), the `_pinned` uid set, the position of the shared
`_color_cycle`, the `_runs_to_lines` index, the lines currently present
on `self.axes`, the uuid counter for freshly created `LineSpec`s, and the
uids whose `new_stream` / `completed` events currently have the model's
handlers connected. -/
structure RLState where
  maxRuns : Nat
  x : String
  ys : List String
  needsStreams : List String
  runs : List Nat
  pinned : List Nat
  colorIdx : Nat
  runsToLines : List (Nat × List Nat)
  lines : List Line
  nextUuid : Nat
  streamSubs : List Nat
  completeSubs : List Nat
deriving DecidableEq

/-- Modelled from the spec: the default `label_maker` built in
`RecentLines.__init__` uses `auto_label` and `run.metadata["start"]`
from `models/utils.py`, which is not part of the sources; per the spec it
derives a label from scan-identifying metadata, appending the
y-expression exactly when several y-expressions are configured. -/
def labelDefault (ys : List String) (r : Run) (y : String) : String :=
  if ys.length > 1 then "Scan " ++ toString r.scanId ++ " " ++ y
  else "Scan " ++ toString r.scanId

/-- Embeds `RecentLines._on_run_removed`: discard the uid from `_pinned`, pop its
line-uuid set from `_runs_to_lines` (raising `KeyError` when the uid has
no entry), and remove each still-present line from the axes, silently
skipping uuids that are no longer in `axes.by_uuid`. -/
def onRunRemoved (s : RLState) (uid : Nat) : RLState × Option PyErr :=
  let s1 := { s with pinned := setRemove s.pinned uid }
  match rtlPop s1.runsToLines uid with
  | none => (s1, some PyErr.keyError)
  | some (uuids, m') =>
      let s2 := { s1 with runsToLines := m' }
      ({ s2 with lines := s2.lines.filter (fun l => !(uuids.contains l.uuid)) },
       none)

/-- The inner `while self.runs[i].metadata["start"]["uid"] in self._pinned:
i += 1` scan of `_cull_runs`, searching `l` (which is `runs` from index
`i` on) for the first non-pinned entry; `none` models running past the
end of the list (`IndexError`). Returns the absolute index and the uid. -/
def findNonPinnedFrom (pinned : List Nat) : List Nat → Nat → Option (Nat × Nat)
  | [], _ => none
  | u :: rest, i =>
      if u ∈ pinned then findNonPinnedFrom pinned rest (i + 1) else some (i, u)

/-- The `while len(self.runs) > self.max_runs + len(self._pinned)` loop of
`RecentLines._cull_runs`, starting its cursor at `i`. Each iteration pops
the first non-pinned entry at index ≥ `i` (the entries before `i` were
already scanned and found pinned; the cursor is not reset between
iterations), which synchronously fires `_on_run_removed`. One unit of
fuel is spent per pop; `_cull_runs` supplies `len(runs)` fuel, which is
enough because every iteration shortens the registry. -/
def cullFrom (s : RLState) (i : Nat) : Nat → RLState × Option PyErr
  | 0 => (s, none)
  | fuel + 1 =>
      if s.runs.length > s.maxRuns + s.pinned.length then
        match findNonPinnedFrom s.pinned (s.runs.drop i) i with
        | none => (s, some PyErr.indexError)
        | some (j, uid) =>
            let s1 := { s with runs := s.runs.eraseIdx j }
            match onRunRemoved s1 uid with
            | (s2, some e) => (s2, some e)
            | (s2, none) => cullFrom s2 j fuel
      else (s, none)

/-- Embeds `RecentLines._cull_runs`. -/
def cullRuns (s : RLState) : RLState × Option PyErr :=
  cullFrom s 0 s.runs.length

/-- One iteration of the `for y in self.ys` loop of
`RecentLines._add_lines`: build the label, pick `"black"` and connect the
`completed` handler when the run is live and not completed, otherwise
draw the next color from the shared cycle; mark pinned runs with a dashed
linestyle and a `" (pinned)"` label suffix; record the new line's uuid
under the run's uid and append the line to the axes. -/
def addLineOne (s : RLState) (r : Run) (y : String) : RLState :=
  let label := labelDefault s.ys r y
  let colored :=
    if r.live then
      ("black", { s with completeSubs := setInsert s.completeSubs r.uid })
    else
      (colorName s.colorIdx, { s with colorIdx := s.colorIdx + 1 })
  let color := colored.1
  let s1 := colored.2
  let styled :=
    if r.uid ∈ s1.pinned then (label ++ " (pinned)", true) else (label, false)
  let line : Line :=
    { uuid := s1.nextUuid, runUid := r.uid, label := styled.1, color := color,
      dashed := styled.2 }
  { s1 with
    runsToLines := rtlAdd s1.runsToLines r.uid line.uuid,
    lines := s1.lines ++ [line],
    nextUuid := s1.nextUuid + 1 }

/-- The `for y in self.ys` loop of `_add_lines` as a whole. -/
def addLinesLoop (r : Run) (ys' : List String) (s : RLState) : RLState :=
  ys'.foldl (fun st y => addLineOne st r y) s

/-- Embeds `RecentLines._add_lines`: first `_cull_runs()` (which may raise), then
one line per configured y-expression. -/
def addLines (s : RLState) (r : Run) : RLState × Option PyErr :=
  match cullRuns s with
  | (s1, some e) => (s1, some e)
  | (s1, none) => (s.ys.foldl (fun st y => addLineOne st r y) s1, none)

/-- Embeds `RecentLines._on_run_added`: draw lines now when the needed streams
are already present, otherwise connect `_on_new_stream` to the run's
`new_stream` event. -/
def onRunAdded (s : RLState) (r : Run) : RLState × Option PyErr :=
  if needsSubset s.needsStreams r.streams then addLines s r
  else ({ s with streamSubs := setInsert s.streamSubs r.uid }, none)

/-- Embeds `RecentLines.add_run`: optionally record the uid in `_pinned`, then
append to `self.runs`, which synchronously fires `_on_run_added`.
Modelled from the spec: the `RunList` registry (from `models/utils.py`,
not in the sources) keeps no duplicate entries, so appending a run
already present is a no-op that emits no `added` event. -/
def addRun (s : RLState) (r : Run) (pinned : Bool) : RLState × Option PyErr :=
  let s1 := if pinned then { s with pinned := setInsert s.pinned r.uid } else s
  if r.uid ∈ s1.runs then (s1, none)
  else
    let s2 := { s1 with runs := s1.runs ++ [r.uid] }
    onRunAdded s2 r

/-- Embeds `RecentLines.discard_run`: remove the run from `self.runs` when
present (which synchronously fires `_on_run_removed`), silently return
otherwise. -/
def discardRun (s : RLState) (uid : Nat) : RLState × Option PyErr :=
  if uid ∈ s.runs then
    let s1 := { s with runs := s.runs.erase uid }
    onRunRemoved s1 uid
  else (s, none)

/-- The `max_runs` property setter: store the new value, then
`_cull_runs()`. -/
def setMaxRuns (s : RLState) (n : Nat) : RLState × Option PyErr :=
  cullRuns { s with maxRuns := n }

/-- An external run fires its `new_stream` event carrying its current
stream set; `RecentLines._on_new_stream` runs only while connected: if
the needed streams are now present it draws the lines and disconnects
itself, otherwise it stays connected and does nothing. -/
def fireNewStream (s : RLState) (r : Run) : RLState × Option PyErr :=
  if r.uid ∈ s.streamSubs then
    if needsSubset s.needsStreams r.streams then
      match addLines s r with
      | (s1, some e) => (s1, some e)
      | (s1, none) =>
          ({ s1 with streamSubs := setRemove s1.streamSubs r.uid }, none)
    else (s, none)
  else (s, none)

/-- One iteration of the recolor loop in `RecentLines._on_run_complete`:
look the uuid up in `axes.by_uuid`; a missing line is skipped silently,
a present line has its style color updated to `next(self._color_cycle)`
(the cycle advances only when the lookup succeeded, because `next` sits
inside the `style.update` call). -/
def recolorOne (s : RLState) (u : Nat) : RLState :=
  if s.lines.any (fun l => l.uuid = u) then
    { s with
      lines := s.lines.map
        (fun l => if l.uuid = u then { l with color := colorName s.colorIdx }
                  else l),
      colorIdx := s.colorIdx + 1 }
  else s

/-- An external run fires its `completed` event;
`RecentLines._on_run_complete` runs only while connected: it reads
`self._runs_to_lines[uid]` (a `defaultdict`, so the lookup never raises
and inserts an empty set for unknown uids) and recolors each
still-present line. -/
def fireCompleted (s : RLState) (uid : Nat) : RLState × Option PyErr :=
  if uid ∈ s.completeSubs then
    let p := rtlGetDefault s.runsToLines uid
    let s1 := { s with runsToLines := p.2 }
    (p.1.foldl recolorOne s1, none)
  else (s, none)

/-- Embeds `RecentLines.__init__`: `ys` given as a single string (instead of a
list) raises `ValueError`; otherwise the model starts with an empty
registry, no pins, the color cycle at its start and no lines. -/
def RLInit (maxRuns : Nat) (x : String) (ys : Sum String (List String))
    (needs : List String) : Except PyErr RLState :=
  match ys with
  | Sum.inl _ => Except.error PyErr.valueError
  | Sum.inr ysList =>
      Except.ok
        { maxRuns := maxRuns, x := x, ys := ysList, needsStreams := needs,
          runs := [], pinned := [], colorIdx := 0, runsToLines := [],
          lines := [], nextUuid := 0, streamSubs := [], completeSubs := [] }

/-- A fresh `RecentLines` model (the non-raising branch of `__init__`). -/
def mkRL (maxRuns : Nat) (x : String) (ys needs : List String) : RLState :=
  { maxRuns := maxRuns, x := x, ys := ys, needsStreams := needs,
    runs := [], pinned := [], colorIdx := 0, runsToLines := [],
    lines := [], nextUuid := 0, streamSubs := [], completeSubs := [] }

/-- One externally triggered step against a `RecentLines` model: the three
public mutations (`add_run`, `discard_run`, `max_runs` assignment) and
the two run notifications (`new_stream`, `completed`). -/
inductive Op where
  | add (r : Run) (pinned : Bool)
  | discard (uid : Nat)
  | setMax (n : Nat)
  | newStream (r : Run)
  | completed (uid : Nat)
deriving DecidableEq

/-- Apply one step. -/
def applyOp (s : RLState) : Op → RLState × Option PyErr
  | Op.add r p => addRun s r p
  | Op.discard uid => discardRun s uid
  | Op.setMax n => setMaxRuns s n
  | Op.newStream r => fireNewStream s r
  | Op.completed uid => fireCompleted s uid

/-- Run a sequence of steps; an uncaught exception propagates to the
driver, so the remaining steps do not execute. -/
def execOps (s : RLState) : List Op → RLState × Option PyErr
  | [] => (s, none)
  | op :: rest =>
      match applyOp s op with
      | (s1, some e) => (s1, some e)
      | (s1, none) => execOps s1 rest

/-- The lines currently on the axes whose source run has uid `u`. -/
def linesFor (s : RLState) (u : Nat) : List Line :=
  s.lines.filter (fun l => l.runUid = u)

/-- The capacity relation `_cull_runs` enforces:
`len(self.runs) ≤ self.max_runs + len(self._pinned)`. -/
def CapInv (s : RLState) : Prop :=
  s.runs.length ≤ s.maxRuns + s.pinned.length

/-- States reachable by well-configured use of `RecentLines`: capacity
honored, duplicate-free registry and pin set, pins only for tracked runs,
an index entry for every tracked run, at least one run allowed, at least
one y-expression configured, and no pending stream subscription. -/
def GoodState (s : RLState) : Prop :=
  CapInv s ∧ s.runs.Nodup ∧ s.pinned.Nodup ∧
  (∀ u ∈ s.pinned, u ∈ s.runs) ∧
  (∀ u ∈ s.runs, rtlHas s.runsToLines u = true) ∧
  1 ≤ s.maxRuns ∧ 1 ≤ s.ys.length ∧ s.streamSubs = []

/-- Steps that keep a `RecentLines` model inside `GoodState`: every added
run already carries the needed streams, and `max_runs` is never assigned
zero. -/
def OpSafe (needs : List String) : Op → Prop
  | Op.add r _ => needsSubset needs r.streams = true
  | Op.setMax n => 1 ≤ n
  | _ => True

instance (s : RLState) : Decidable (CapInv s) := by
  unfold CapInv
  infer_instance

instance (s : RLState) : Decidable (GoodState s) := by
  unfold GoodState
  infer_instance

instance (needs : List String) (op : Op) : Decidable (OpSafe needs op) := by
  cases op <;> (unfold OpSafe; infer_instance)

/-- A one-slot demo model already tracking a pinned run with uid 7. -/
def demoPinned7 : RLState :=
  { mkRL 1 "motor" ["det"] ["primary"] with
    runs := [7], pinned := [7], runsToLines := [(7, [])] }

/-- A demo model in which every tracked run is pinned and the nominal
capacity is exceeded. -/
def demoAllPinned : RLState :=
  { mkRL 1 "motor" ["det"] ["primary"] with
    runs := [4, 5], pinned := [4, 5] }

end BW

namespace BW

/-! ## `Image`: middle-slice dimensional collapse -/

/-- A numpy array as `Image._transform` consumes it: its shape and its
row-major flat data. -/
structure NArr (α : Type) where
  shape : List Nat
  flat : List α
deriving DecidableEq

/-- Embeds `data[m]` on the leading axis: shape loses its head, the flat data is
the `m`-th block of size `prod(rest of shape)`. -/
def sliceAt {α : Type} (m : Nat) (a : NArr α) : NArr α :=
  match a.shape with
  | [] => a
  | _ :: ds => { shape := ds, flat := (a.flat.drop (m * ds.prod)).take ds.prod }

/-- Embeds `data[data.shape[0] // 2]`, the body of the `while data.ndim > 2`
loop. -/
def middleSlice {α : Type} (a : NArr α) : NArr α :=
  match a.shape with
  | [] => a
  | d :: _ => sliceAt (d / 2) a

/-- The `while data.ndim > 2` loop of `Image._transform`; the fuel (one
unit per iteration) is instantiated with `ndim`, which bounds the number
of iterations since every slice removes one axis. -/
def imageTransformGo {α : Type} : Nat → NArr α → NArr α
  | 0, a => a
  | fuel + 1, a =>
      if 2 < a.shape.length then imageTransformGo fuel (middleSlice a) else a

/-- Embeds `Image._transform` after the field evaluation: repeatedly take the
middle slice along the leading axis until at most two axes remain. -/
def imageTransform {α : Type} (a : NArr α) : NArr α :=
  imageTransformGo a.shape.length a

/-! ## `RasteredImage`: snake-scan raster reconstruction and orientation -/

/-- Write `v` at `(ri, ci)` of a grid of optional values (`none` is the
NaN "no data yet" sentinel). Out-of-range writes cannot occur on the
paths the transform takes. -/
def set2d {α : Type} (g : List (List (Option α))) (ri ci : Nat) (v : α) :
    List (List (Option α)) :=
  match g.get? ri with
  | none => g
  | some row => g.set ri (row.set ci (some v))

/-- The `for i in range(len(data))` loop of `RasteredImage._transform`:
unravel the linear index `i` row-major over `(r, c)`, mirror the column
when the snaking flag for the column axis is set and the row is odd, and
write the datum. `numpy.unravel_index` raises `ValueError` once `i`
reaches `r * c`. -/
def rasterGo {α : Type} (r c : Nat) (snaking2 : Bool) :
    List (List (Option α)) → Nat → List α →
    Except PyErr (List (List (Option α)))
  | g, _, [] => Except.ok g
  | g, i, d :: rest =>
      if i < r * c then
        let p0 := i / c
        let p1 := i % c
        let p1' := if snaking2 && decide (p0 % 2 = 1) then c - p1 - 1 else p1
        rasterGo r c snaking2 (set2d g p0 p1' d) (i + 1) rest
      else Except.error PyErr.valueError

/-- Embeds `RasteredImage._transform` after the field evaluation: allocate an
all-NaN `(r, c)` grid and place each datum of the 1D sequence, honoring
the run's `snaking` metadata (its flag for the column axis is
`snaking[1]`). -/
def rasterTransform {α : Type} (shape : Nat × Nat) (snaking : Bool × Bool)
    (data : List α) : Except PyErr (List (List (Option α))) :=
  rasterGo shape.1 shape.2 snaking.2
    (List.replicate shape.1 (List.replicate shape.2 (none : Option α)))
    0 data

/-- The `RasteredImage` state touched by the orientation properties: the
stored `_x_positive` / `_y_positive` attributes and the axes limit
pairs (`None` until set). Limits are modelled as rationals. -/
structure RIState where
  fieldName : String
  shape : Nat × Nat
  xPositiveStored : String
  yPositiveStored : String
  xLimits : Option (ℚ × ℚ)
  yLimits : Option (ℚ × ℚ)
deriving DecidableEq

/-- The `x_positive` property getter: unpack the current x-limits
(`TypeError` when they are unset), derive the orientation from their
order, store it back into `_x_positive`, and return it. -/
def xPositiveGet (s : RIState) : String × RIState × Option PyErr :=
  match s.xLimits with
  | none => ("", s, some PyErr.typeError)
  | some (xmin, xmax) =>
      let v := if xmin > xmax then "left" else "right"
      (v, { s with xPositiveStored := v }, none)

/-- The `x_positive` property setter: reject values outside
`{"right", "left"}` with `ValueError` before touching any state; then
store the value and reorder the limit pair to match it. -/
def xPositiveSet (s : RIState) (value : String) : RIState × Option PyErr :=
  if ¬ (value = "right" ∨ value = "left") then (s, some PyErr.valueError)
  else
    let s1 := { s with xPositiveStored := value }
    match s1.xLimits with
    | none => (s1, some PyErr.typeError)
    | some (xmin, xmax) =>
        if (xmin > xmax ∧ s1.xPositiveStored = "right") ∨
           (xmax > xmin ∧ s1.xPositiveStored = "left") then
          ({ s1 with xLimits := some (xmax, xmin) }, none)
        else if (xmax ≥ xmin ∧ s1.xPositiveStored = "right") ∨
                (xmin ≥ xmax ∧ s1.xPositiveStored = "left") then
          ({ s1 with xLimits := some (xmin, xmax), xPositiveStored := value },
           none)
        else (s1, none)

/-- The `y_positive` property getter (decreasing limits mean `"down"`). -/
def yPositiveGet (s : RIState) : String × RIState × Option PyErr :=
  match s.yLimits with
  | none => ("", s, some PyErr.typeError)
  | some (ymin, ymax) =>
      let v := if ymin > ymax then "down" else "up"
      (v, { s with yPositiveStored := v }, none)

/-- The `y_positive` property setter: reject values outside
`{"up", "down"}` with `ValueError` before touching any state. -/
def yPositiveSet (s : RIState) (value : String) : RIState × Option PyErr :=
  if ¬ (value = "up" ∨ value = "down") then (s, some PyErr.valueError)
  else
    let s1 := { s with yPositiveStored := value }
    match s1.yLimits with
    | none => (s1, some PyErr.typeError)
    | some (ymin, ymax) =>
        if (ymin > ymax ∧ s1.yPositiveStored = "up") ∨
           (ymax > ymin ∧ s1.yPositiveStored = "down") then
          ({ s1 with yLimits := some (ymax, ymin) }, none)
        else if (ymax ≥ ymin ∧ s1.yPositiveStored = "up") ∨
                (ymin ≥ ymax ∧ s1.yPositiveStored = "down") then
          ({ s1 with yLimits := some (ymin, ymax), yPositiveStored := value },
           none)
        else (s1, none)

end BW

namespace BW

/-! ## Helper lemmas: Python-set and index-map operations -/

theorem mem_setInsert {l : List Nat} {x u : Nat} :
    u ∈ setInsert l x ↔ u ∈ l ∨ u = x := by
  unfold setInsert
  split
  · next hx =>
      constructor
      · exact fun h => Or.inl h
      · rintro (h | rfl)
        · exact h
        · exact hx
  · simp [List.mem_append]

theorem self_mem_setInsert {l : List Nat} {x : Nat} : x ∈ setInsert l x :=
  mem_setInsert.mpr (Or.inr rfl)

theorem setInsert_nodup {l : List Nat} {x : Nat} (h : l.Nodup) :
    (setInsert l x).Nodup := by
  unfold setInsert
  split
  · exact h
  · next hx =>
      simp only [List.nodup_append, List.nodup_cons, List.not_mem_nil,
        not_false_iff, List.nodup_nil, and_true, true_and]
      refine ⟨h, ?_⟩
      intro a ha hb
      simp only [List.mem_singleton] at hb
      exact hx (hb ▸ ha)

theorem length_le_setInsert {l : List Nat} {x : Nat} :
    l.length ≤ (setInsert l x).length := by
  unfold setInsert
  split
  · exact le_refl _
  · simp

theorem mem_setRemove {l : List Nat} {x u : Nat} :
    u ∈ setRemove l x ↔ u ∈ l ∧ u ≠ x := by
  simp [setRemove, List.mem_filter]

theorem setRemove_of_not_mem {l : List Nat} {x : Nat} (h : x ∉ l) :
    setRemove l x = l := by
  unfold setRemove
  apply List.filter_eq_self.mpr
  intro a ha
  simp only [ne_eq, decide_not, Bool.not_eq_true', decide_eq_false_iff_not]
  rintro rfl
  exact h ha

theorem setRemove_nodup {l : List Nat} {x : Nat} (h : l.Nodup) :
    (setRemove l x).Nodup :=
  List.Nodup.filter _ h

theorem setRemove_length {l : List Nat} {x : Nat} (hn : l.Nodup) (hx : x ∈ l) :
    (setRemove l x).length + 1 = l.length := by
  induction l with
  | nil => cases hx
  | cons a l ih =>
      have h1 := (List.nodup_cons.mp hn).1
      have hn' := (List.nodup_cons.mp hn).2
      by_cases hax : a = x
      · subst hax
        have heq : setRemove (a :: l) a = setRemove l a := by
          simp [setRemove, List.filter_cons]
        rw [heq, setRemove_of_not_mem h1]
        simp
      · have hmem : x ∈ l := by
          rcases List.mem_cons.mp hx with h | h
          · exact absurd h.symm hax
          · exact h
        have heq : setRemove (a :: l) x = a :: setRemove l x := by
          simp [setRemove, List.filter_cons, hax]
        rw [heq]
        have hih := ih hn' hmem
        simp only [List.length_cons]
        omega

theorem rtlLookup_rtlAdd_self (m : List (Nat × List Nat)) (u x : Nat) :
    rtlLookup (rtlAdd m u x) u = some (setInsert ((rtlLookup m u).getD []) x) := by
  induction m with
  | nil => simp [rtlAdd, rtlLookup, setInsert]
  | cons kv rest ih =>
      obtain ⟨k, v⟩ := kv
      by_cases hk : k = u
      · subst hk
        simp [rtlAdd, rtlLookup]
      · simp [rtlAdd, rtlLookup, hk, ih]

theorem rtlHas_rtlAdd_self (m : List (Nat × List Nat)) (u x : Nat) :
    rtlHas (rtlAdd m u x) u = true := by
  simp [rtlHas, rtlLookup_rtlAdd_self]

theorem rtlLookup_rtlAdd_ne (m : List (Nat × List Nat)) (u x u' : Nat)
    (h : u' ≠ u) : rtlLookup (rtlAdd m u x) u' = rtlLookup m u' := by
  induction m with
  | nil => simp [rtlAdd, rtlLookup, Ne.symm h]
  | cons kv rest ih =>
      obtain ⟨k, v⟩ := kv
      by_cases hk : k = u
      · subst hk
        simp [rtlAdd, rtlLookup, Ne.symm h]
      · by_cases hk' : k = u'
        · subst hk'
          simp [rtlAdd, rtlLookup, hk]
        · simp [rtlAdd, rtlLookup, hk, hk', ih]

theorem rtlPop_none_iff (m : List (Nat × List Nat)) (u : Nat) :
    rtlPop m u = none ↔ rtlLookup m u = none := by
  induction m with
  | nil => simp [rtlPop, rtlLookup]
  | cons kv rest ih =>
      obtain ⟨k, v⟩ := kv
      by_cases hk : k = u
      · subst hk
        simp [rtlPop, rtlLookup]
      · simp only [rtlPop, rtlLookup, hk, if_false, if_neg hk]
        rcases h : rtlPop rest u with _ | ⟨v', m'⟩
        · simp [ih.mp h]
        · have : rtlLookup rest u ≠ none := by
            intro hnone
            rw [← ih] at hnone
            rw [h] at hnone
            cases hnone
          simp only []
          constructor
          · intro hcontra
            cases hcontra
          · intro hl
            exact absurd hl this

theorem rtlLookup_rtlPop_ne (m : List (Nat × List Nat)) (u : Nat)
    {v : List Nat} {m' : List (Nat × List Nat)}
    (h : rtlPop m u = some (v, m')) (u' : Nat) (hne : u' ≠ u) :
    rtlLookup m' u' = rtlLookup m u' := by
  induction m generalizing m' with
  | nil => cases h
  | cons kv rest ih =>
      obtain ⟨k, w⟩ := kv
      by_cases hk : k = u
      · subst hk
        simp only [rtlPop, if_pos rfl] at h
        cases h
        simp [rtlLookup, Ne.symm hne]
      · simp only [rtlPop, if_neg hk] at h
        rcases hrest : rtlPop rest u with _ | ⟨v2, m2⟩
        · rw [hrest] at h
          cases h
        · rw [hrest] at h
          cases h
          by_cases hk' : k = u'
          · subst hk'
            simp [rtlLookup]
          · simp [rtlLookup, hk', ih hrest]

theorem rtlGetDefault_of_lookup {m : List (Nat × List Nat)} {u : Nat}
    {v : List Nat} (h : rtlLookup m u = some v) : rtlGetDefault m u = (v, m) := by
  induction m with
  | nil => cases h
  | cons kv rest ih =>
      obtain ⟨k, w⟩ := kv
      by_cases hk : k = u
      · subst hk
        simp only [rtlLookup, if_pos rfl] at h
        cases h
        simp [rtlGetDefault]
      · simp only [rtlLookup, if_neg hk] at h
        simp [rtlGetDefault, hk, ih h]

theorem rtlLookup_rtlGetDefault_ne (m : List (Nat × List Nat)) (u u' : Nat)
    (hne : u' ≠ u) : rtlLookup (rtlGetDefault m u).2 u' = rtlLookup m u' := by
  induction m with
  | nil => simp [rtlGetDefault, rtlLookup, Ne.symm hne]
  | cons kv rest ih =>
      obtain ⟨k, w⟩ := kv
      by_cases hk : k = u
      · subst hk
        simp [rtlGetDefault, rtlLookup]
      · by_cases hk' : k = u'
        · subst hk'
          simp [rtlGetDefault, rtlLookup, hk]
        · simp [rtlGetDefault, rtlLookup, hk, hk', ih]

/-! ## Helper lemmas: positional list reasoning for the cull loop -/

theorem get?_mem_bw {α : Type} {l : List α} :
    ∀ {j : Nat} {v : α}, l.get? j = some v → v ∈ l := by
  induction l with
  | nil => intro j v h; cases h
  | cons a l ih =>
      intro j v h
      cases j with
      | zero =>
          cases h
          exact List.mem_cons_self a l
      | succ j' => exact List.mem_cons_of_mem a (ih h)

theorem get?_drop_bw {α : Type} (l : List α) :
    ∀ (i k : Nat), (l.drop i).get? k = l.get? (i + k) := by
  induction l with
  | nil => intro i k; simp
  | cons a l ih =>
      intro i k
      cases i with
      | zero => simp
      | succ i' =>
          simp only [List.drop_succ_cons]
          rw [ih i' k]
          have h1 : i' + 1 + k = (i' + k) + 1 := by omega
          rw [h1, List.get?_cons_succ]

theorem get?_eraseIdx_lt_bw {α : Type} (l : List α) :
    ∀ (j k : Nat), k < j → (l.eraseIdx j).get? k = l.get? k := by
  induction l with
  | nil => intro j k _; rfl
  | cons a l ih =>
      intro j k hk
      cases j with
      | zero => omega
      | succ j' =>
          cases k with
          | zero => rfl
          | succ k' =>
              simp only [List.eraseIdx_cons_succ, List.get?_cons_succ]
              exact ih j' k' (by omega)

theorem eraseIdx_append_left_bw {α : Type} (l1 l2 : List α) :
    ∀ (j : Nat), j < l1.length → (l1 ++ l2).eraseIdx j = l1.eraseIdx j ++ l2 := by
  induction l1 with
  | nil => intro j h; simp at h
  | cons a l ih =>
      intro j h
      cases j with
      | zero => rfl
      | succ j' =>
          simp only [List.cons_append, List.eraseIdx_cons_succ]
          rw [ih j' (by simpa using h)]

theorem length_eraseIdx_bw {α : Type} (l : List α) :
    ∀ (j : Nat), j < l.length → (l.eraseIdx j).length + 1 = l.length := by
  induction l with
  | nil => intro j h; simp at h
  | cons a l ih =>
      intro j h
      cases j with
      | zero => rfl
      | succ j' =>
          simp only [List.eraseIdx_cons_succ, List.length_cons]
          rw [ih j' (by simpa using h)]

theorem mem_eraseIdx_of_ne_bw {α : Type} {l : List α} :
    ∀ {j : Nat} {v u : α}, l.get? j = some v → u ∈ l → u ≠ v →
      u ∈ l.eraseIdx j := by
  induction l with
  | nil => intro j v u h _ _; cases h
  | cons a l ih =>
      intro j v u h hu hne
      cases j with
      | zero =>
          cases h
          rcases List.mem_cons.mp hu with h1 | h1
          · exact absurd h1 hne
          · simpa using h1
      | succ j' =>
          rcases List.mem_cons.mp hu with h1 | h1
          · subst h1
            simp [List.eraseIdx_cons_succ]
          · simp only [List.eraseIdx_cons_succ]
            exact List.mem_cons_of_mem a (ih h h1 hne)

theorem eraseIdx_sublist_bw {α : Type} (l : List α) (j : Nat) :
    List.Sublist (l.eraseIdx j) l := by
  induction l generalizing j with
  | nil => simp
  | cons a l ih =>
      cases j with
      | zero =>
          simp only [List.eraseIdx_cons_zero]
          exact List.sublist_cons_self a l
      | succ j' =>
          simp only [List.eraseIdx_cons_succ]
          exact List.Sublist.cons₂ a (ih j')

theorem nodup_length_le_bw {l1 l2 : List Nat} (hn : l1.Nodup)
    (hsub : ∀ u ∈ l1, u ∈ l2) : l1.length ≤ l2.length := by
  classical
  calc l1.length = l1.toFinset.card := (List.toFinset_card_of_nodup hn).symm
    _ ≤ l2.toFinset.card := by
        apply Finset.card_le_card
        intro a ha
        simp only [List.mem_toFinset] at ha ⊢
        exact hsub a ha
    _ ≤ l2.length := l2.toFinset_card_le

theorem findNonPinnedFrom_none_bw {pinned : List Nat} :
    ∀ {l : List Nat} {i : Nat}, findNonPinnedFrom pinned l i = none →
      ∀ u ∈ l, u ∈ pinned := by
  intro l
  induction l with
  | nil => intro i _ u hu; cases hu
  | cons a l ih =>
      intro i h u hu
      by_cases ha : a ∈ pinned
      · simp only [findNonPinnedFrom, if_pos ha] at h
        rcases List.mem_cons.mp hu with h1 | h1
        · exact h1 ▸ ha
        · exact ih h u h1
      · simp [findNonPinnedFrom, if_neg ha] at h

theorem findNonPinnedFrom_some_bw {pinned : List Nat} :
    ∀ {l : List Nat} {i j v : Nat},
      findNonPinnedFrom pinned l i = some (j, v) →
      i ≤ j ∧ j - i < l.length ∧ l.get? (j - i) = some v ∧ v ∉ pinned ∧
        ∀ k, k < j - i → ∀ w, l.get? k = some w → w ∈ pinned := by
  intro l
  induction l with
  | nil => intro i j v h; cases h
  | cons a l ih =>
      intro i j v h
      by_cases ha : a ∈ pinned
      · simp only [findNonPinnedFrom, if_pos ha] at h
        obtain ⟨h1, h2, h3, h4, h5⟩ := ih h
        have hij : i + 1 ≤ j := h1
        refine ⟨by omega, by simp; omega, ?_, h4, ?_⟩
        · have : j - i = (j - (i + 1)) + 1 := by omega
          rw [this]
          simpa using h3
        · intro k hk w hw
          cases k with
          | zero =>
              cases hw
              exact ha
          | succ k' =>
              simp only [List.get?_cons_succ] at hw
              exact h5 k' (by omega) w hw
      · simp only [findNonPinnedFrom, if_neg ha] at h
        cases h
        refine ⟨le_refl _, by simp, by simp, ha, ?_⟩
        intro k hk
        omega

theorem get?_append_left_bw {α : Type} (l1 l2 : List α) :
    ∀ (k : Nat), k < l1.length → (l1 ++ l2).get? k = l1.get? k := by
  induction l1 with
  | nil => intro k h; simp at h
  | cons a l ih =>
      intro k h
      cases k with
      | zero => rfl
      | succ k' =>
          simp only [List.cons_append, List.get?_cons_succ]
          exact ih k' (by simpa using h)

theorem get?_append_len_bw {α : Type} (l : List α) (x : α) :
    (l ++ [x]).get? l.length = some x := by
  induction l with
  | nil => rfl
  | cons a l ih => simpa using ih

theorem get?_of_mem_bw {α : Type} {l : List α} {a : α} (h : a ∈ l) :
    ∃ k, l.get? k = some a := by
  induction l with
  | nil => cases h
  | cons b l ih =>
      rcases List.mem_cons.mp h with h1 | h1
      · exact ⟨0, by simp [h1]⟩
      · obtain ⟨k, hk⟩ := ih h1
        exact ⟨k + 1, by simpa using hk⟩

theorem nodup_get?_unique_bw {α : Type} {l : List α} (hn : l.Nodup) :
    ∀ {i j : Nat} {v : α}, l.get? i = some v → l.get? j = some v → i = j := by
  induction l with
  | nil => intro i j v h; cases h
  | cons a l ih =>
      intro i j v hi hj
      have h1 := (List.nodup_cons.mp hn).1
      have hn' := (List.nodup_cons.mp hn).2
      cases i with
      | zero =>
          cases hi
          cases j with
          | zero => rfl
          | succ j' =>
              simp only [List.get?_cons_succ] at hj
              exact absurd (get?_mem_bw hj) h1
      | succ i' =>
          cases j with
          | zero =>
              cases hj
              simp only [List.get?_cons_succ] at hi
              exact absurd (get?_mem_bw hi) h1
          | succ j' =>
              simp only [List.get?_cons_succ] at hi hj
              exact congrArg Nat.succ (ih hn' hi hj)

theorem not_mem_eraseIdx_self_bw {l : List Nat} {j : Nat} {v : Nat}
    (hn : l.Nodup) (h : l.get? j = some v) : v ∉ l.eraseIdx j := by
  intro hmem
  rw [List.mem_eraseIdx_iff_get?] at hmem
  obtain ⟨i, hij, hi⟩ := hmem
  exact hij (nodup_get?_unique_bw hn hi h)

/-! ## Helper lemmas: `_on_run_removed` -/

theorem onRunRemoved_err {s : RLState} {uid : Nat}
    (h : rtlHas s.runsToLines uid = false) :
    onRunRemoved s uid = ({ s with pinned := setRemove s.pinned uid },
      some PyErr.keyError) := by
  have hl : rtlLookup s.runsToLines uid = none := by
    simp only [rtlHas] at h
    exact Option.not_isSome_iff_eq_none.mp (by rw [h]; intro hc; cases hc)
  have hp : rtlPop s.runsToLines uid = none := (rtlPop_none_iff _ _).mpr hl
  simp only [onRunRemoved, hp]

theorem onRunRemoved_ok {s : RLState} {uid : Nat}
    (h : rtlHas s.runsToLines uid = true) :
    (onRunRemoved s uid).2 = none ∧
    (onRunRemoved s uid).1.runs = s.runs ∧
    (onRunRemoved s uid).1.maxRuns = s.maxRuns ∧
    (onRunRemoved s uid).1.x = s.x ∧
    (onRunRemoved s uid).1.ys = s.ys ∧
    (onRunRemoved s uid).1.needsStreams = s.needsStreams ∧
    (onRunRemoved s uid).1.streamSubs = s.streamSubs ∧
    (onRunRemoved s uid).1.completeSubs = s.completeSubs ∧
    (onRunRemoved s uid).1.colorIdx = s.colorIdx ∧
    (onRunRemoved s uid).1.nextUuid = s.nextUuid ∧
    (onRunRemoved s uid).1.pinned = setRemove s.pinned uid ∧
    (∀ u, u ≠ uid →
      rtlLookup (onRunRemoved s uid).1.runsToLines u = rtlLookup s.runsToLines u) := by
  have hl : ∃ v, rtlLookup s.runsToLines uid = some v := by
    simp only [rtlHas, Option.isSome_iff_exists] at h
    exact h
  obtain ⟨v, hv⟩ := hl
  have hp : rtlPop s.runsToLines uid ≠ none := by
    intro hc
    rw [rtlPop_none_iff, hv] at hc
    cases hc
  rcases hpop : rtlPop s.runsToLines uid with _ | ⟨uuids, m'⟩
  · exact absurd hpop hp
  · refine ⟨?_, ?_, ?_, ?_, ?_, ?_, ?_, ?_, ?_, ?_, ?_, ?_⟩ <;>
      simp only [onRunRemoved, hpop] <;> try rfl
    intro u hu
    exact rtlLookup_rtlPop_ne _ _ hpop u hu

theorem get?_lt_length_bw {α : Type} {l : List α} :
    ∀ {k : Nat} {v : α}, l.get? k = some v → k < l.length := by
  induction l with
  | nil => intro k v h; cases h
  | cons a l ih =>
      intro k v h
      cases k with
      | zero => simp
      | succ k' =>
          simp only [List.get?_cons_succ] at h
          simpa using ih h

/-! ## The `_cull_runs` loop: error-freedom, capacity restoration and frame
conditions, for a registry whose last entry (the run being admitted) is
exempt from eviction because at least one older non-pinned entry must
exist whenever the loop body runs. -/

theorem cullFrom_spec :
    ∀ (fuel : Nat) (s : RLState) (i : Nat) (front : List Nat) (ex : Nat),
      s.runs = front ++ [ex] →
      s.runs.length ≤ fuel →
      (∀ k v, k < i → s.runs.get? k = some v → v ∈ s.pinned) →
      s.runs.Nodup →
      s.pinned.Nodup →
      (∀ u ∈ s.pinned, u ∈ s.runs) →
      1 ≤ s.maxRuns →
      (∀ u ∈ front, rtlHas s.runsToLines u = true) →
      (cullFrom s i fuel).2 = none ∧
      (∃ front', (cullFrom s i fuel).1.runs = front' ++ [ex] ∧
        List.Sublist front' front) ∧
      (cullFrom s i fuel).1.maxRuns = s.maxRuns ∧
      (cullFrom s i fuel).1.pinned = s.pinned ∧
      (cullFrom s i fuel).1.x = s.x ∧
      (cullFrom s i fuel).1.ys = s.ys ∧
      (cullFrom s i fuel).1.needsStreams = s.needsStreams ∧
      (cullFrom s i fuel).1.streamSubs = s.streamSubs ∧
      (cullFrom s i fuel).1.completeSubs = s.completeSubs ∧
      (cullFrom s i fuel).1.colorIdx = s.colorIdx ∧
      (cullFrom s i fuel).1.nextUuid = s.nextUuid ∧
      CapInv (cullFrom s i fuel).1 ∧
      (∀ u, u ∈ (cullFrom s i fuel).1.runs → rtlHas s.runsToLines u = true →
        rtlHas (cullFrom s i fuel).1.runsToLines u = true) ∧
      (∀ u, u ∈ s.pinned → u ∈ s.runs → u ∈ (cullFrom s i fuel).1.runs) := by
  intro fuel
  induction fuel with
  | zero =>
      intro s i front ex hre hlen _ _ _ _ _ _
      rw [hre] at hlen
      simp at hlen
  | succ fuel ih =>
      intro s i front ex hre hlen hpre hnd hpnd hsub hmax hent
      have hfrontnd : front.Nodup := by
        rw [hre, List.nodup_append] at hnd
        exact hnd.1
      have hexfront : ex ∉ front := by
        rw [hre, List.nodup_append] at hnd
        intro hmem
        exact hnd.2.2 hmem (List.mem_singleton_self ex)
      by_cases hcond : s.runs.length > s.maxRuns + s.pinned.length
      · rcases hfind : findNonPinnedFrom s.pinned (s.runs.drop i) i with _ | ⟨j, v⟩
        · exfalso
          have hall : ∀ u ∈ s.runs, u ∈ s.pinned := by
            intro u hu
            obtain ⟨k, hk⟩ := get?_of_mem_bw hu
            by_cases hki : k < i
            · exact hpre k u hki hk
            · have hdrop : (s.runs.drop i).get? (k - i) = some u := by
                rw [get?_drop_bw]
                have heq : i + (k - i) = k := by omega
                rw [heq]
                exact hk
              exact findNonPinnedFrom_none_bw hfind u (get?_mem_bw hdrop)
          have := nodup_length_le_bw hnd hall
          omega
        · obtain ⟨hij, hjlt, hjget, hvnp, hprefix⟩ := findNonPinnedFrom_some_bw hfind
          have hget : s.runs.get? j = some v := by
            rw [get?_drop_bw] at hjget
            have heq : i + (j - i) = j := by omega
            rwa [heq] at hjget
          have hjlen : j < s.runs.length := get?_lt_length_bw hget
          have hallpre : ∀ k w, k < j → s.runs.get? k = some w → w ∈ s.pinned := by
            intro k w hkj hkw
            by_cases hki : k < i
            · exact hpre k w hki hkw
            · have h1 : (s.runs.drop i).get? (k - i) = some w := by
                rw [get?_drop_bw]
                have heq : i + (k - i) = k := by omega
                rw [heq]
                exact hkw
              exact hprefix (k - i) (by omega) w h1
          have hlen' : s.runs.length = front.length + 1 := by
            rw [hre]
            simp
          have hjfront : j < front.length := by
            by_contra hge
            have hj_eq : j = front.length := by omega
            have hfrontpin : ∀ u ∈ front, u ∈ s.pinned := by
              intro u hu
              obtain ⟨k, hk⟩ := get?_of_mem_bw hu
              have hkl : k < front.length := get?_lt_length_bw hk
              have hk' : s.runs.get? k = some u := by
                rw [hre, get?_append_left_bw front [ex] k hkl]
                exact hk
              exact hallpre k u (by omega) hk'
            have := nodup_length_le_bw hfrontnd hfrontpin
            omega
          have hvfront : v ∈ front := by
            have hget' := hget
            rw [hre, get?_append_left_bw front [ex] j hjfront] at hget'
            exact get?_mem_bw hget'
          have hfg : front.get? j = some v := by
            have hget' := hget
            rwa [hre, get?_append_left_bw front [ex] j hjfront] at hget'
          have hvnotex : v ≠ ex := by
            intro hveq
            exact hexfront (hveq ▸ hvfront)
          have hs1runs : s.runs.eraseIdx j = front.eraseIdx j ++ [ex] := by
            rw [hre, eraseIdx_append_left_bw front [ex] j hjfront]
          have hvnotin : v ∉ front.eraseIdx j :=
            not_mem_eraseIdx_self_bw hfrontnd hfg
          have hhasv :
              rtlHas ({ s with runs := s.runs.eraseIdx j } : RLState).runsToLines v
                = true := hent v hvfront
          obtain ⟨e2, r2, m2, x2, y2, n2, ss2, cs2, ci2, nu2, p2, lk2⟩ :=
            onRunRemoved_ok hhasv
          rcases h2 : onRunRemoved { s with runs := s.runs.eraseIdx j } v
            with ⟨s2, err2⟩
          rw [h2] at e2 r2 m2 x2 y2 n2 ss2 cs2 ci2 nu2 p2 lk2
          simp only at e2 r2 m2 x2 y2 n2 ss2 cs2 ci2 nu2 p2 lk2
          subst e2
          have hunfold : cullFrom s i (fuel + 1) = cullFrom s2 j fuel := by
            simp only [cullFrom, if_pos hcond, hfind, h2]
          have hpinned2 : s2.pinned = s.pinned := by
            rw [p2]
            exact setRemove_of_not_mem hvnp
          have hr2 : s2.runs = front.eraseIdx j ++ [ex] := by
            rw [r2]
            exact hs1runs
          have hlen2 : s2.runs.length ≤ fuel := by
            rw [hr2]
            have h3 := length_eraseIdx_bw front j hjfront
            simp only [List.length_append, List.length_cons, List.length_nil]
            omega
          have hlk2' : ∀ u, u ≠ v →
              rtlHas s2.runsToLines u = rtlHas s.runsToLines u := by
            intro u hu
            simp only [rtlHas, lk2 u hu]
          obtain ⟨ihe, ⟨front', ihf, ihsub⟩, ihm, ihp, ihx, ihy, ihn, ihss,
              ihcs, ihci, ihnu, ihcap, ihhas, ihpin⟩ :=
            ih s2 j (front.eraseIdx j) ex hr2 hlen2
              (by
                intro k w hkj hkw
                rw [hpinned2]
                have hkw' : s.runs.get? k = some w := by
                  rw [r2] at hkw
                  rwa [get?_eraseIdx_lt_bw s.runs j k hkj] at hkw
                exact hallpre k w hkj hkw')
              (by
                rw [r2]
                exact List.Nodup.sublist (eraseIdx_sublist_bw s.runs j) hnd)
              (by
                rw [hpinned2]
                exact hpnd)
              (by
                intro u hu
                rw [hpinned2] at hu
                rw [r2]
                have hune : u ≠ v := by
                  intro hveq
                  exact hvnp (hveq ▸ hu)
                exact mem_eraseIdx_of_ne_bw hget (hsub u hu) hune)
              (by
                rw [m2]
                exact hmax)
              (by
                intro u hu
                have hufront : u ∈ front :=
                  List.Sublist.subset (eraseIdx_sublist_bw front j) hu
                have hune : u ≠ v := by
                  intro hveq
                  exact hvnotin (hveq ▸ hu)
                rw [hlk2' u hune]
                exact hent u hufront)
          rw [hunfold]
          refine ⟨ihe, ⟨front', ihf,
              List.Sublist.trans ihsub (eraseIdx_sublist_bw front j)⟩,
            ihm.trans m2, ihp.trans hpinned2, ihx.trans x2, ihy.trans y2,
            ihn.trans n2, ihss.trans ss2, ihcs.trans cs2, ihci.trans ci2,
            ihnu.trans nu2, ihcap, ?_, ?_⟩
          · intro u hu hhas
            apply ihhas u hu
            have hune : u ≠ v := by
              rw [ihf] at hu
              rcases List.mem_append.mp hu with h1 | h1
              · intro hveq
                exact hvnotin (hveq ▸ List.Sublist.subset ihsub h1)
              · intro hveq
                rw [List.mem_singleton] at h1
                exact hvnotex (hveq ▸ h1)
            rw [hlk2' u hune]
            exact hhas
          · intro u hup hur
            apply ihpin u
            · rw [hpinned2]
              exact hup
            · rw [hr2, ← hs1runs]
              have hune : u ≠ v := fun hc => hvnp (hc ▸ hup)
              exact mem_eraseIdx_of_ne_bw hget hur hune
      · have hres : cullFrom s i (fuel + 1) = (s, none) := by
          simp only [cullFrom, if_neg hcond]
        rw [hres]
        refine ⟨rfl, ⟨front, hre, List.Sublist.refl front⟩, rfl, rfl, rfl, rfl,
          rfl, rfl, rfl, rfl, rfl, ?_, ?_, ?_⟩
        · exact Nat.le_of_not_lt hcond
        · exact fun u _ h => h
        · exact fun u _ hu => hu

theorem cull_noop {s : RLState}
    (h : ¬ s.runs.length > s.maxRuns + s.pinned.length) :
    cullRuns s = (s, none) := by
  unfold cullRuns
  cases hl : s.runs.length with
  | zero => rfl
  | succ n => simp only [cullFrom, if_neg h]

/-! ## The `_cull_runs` loop without pins: exact FIFO behavior -/

theorem cullFrom_no_pin :
    ∀ (fuel : Nat) (s : RLState),
      s.pinned = [] →
      s.runs.length ≤ fuel →
      1 ≤ s.maxRuns →
      s.runs.Nodup →
      (∀ u ∈ s.runs.dropLast, rtlHas s.runsToLines u = true) →
      (cullFrom s 0 fuel).2 = none ∧
      (cullFrom s 0 fuel).1.runs = s.runs.drop (s.runs.length - s.maxRuns) ∧
      (cullFrom s 0 fuel).1.pinned = [] ∧
      (cullFrom s 0 fuel).1.maxRuns = s.maxRuns ∧
      (cullFrom s 0 fuel).1.x = s.x ∧
      (cullFrom s 0 fuel).1.ys = s.ys ∧
      (cullFrom s 0 fuel).1.needsStreams = s.needsStreams ∧
      (cullFrom s 0 fuel).1.streamSubs = s.streamSubs ∧
      (cullFrom s 0 fuel).1.completeSubs = s.completeSubs ∧
      (cullFrom s 0 fuel).1.colorIdx = s.colorIdx ∧
      (cullFrom s 0 fuel).1.nextUuid = s.nextUuid ∧
      (∀ u, u ∈ (cullFrom s 0 fuel).1.runs → rtlHas s.runsToLines u = true →
        rtlHas (cullFrom s 0 fuel).1.runsToLines u = true) := by
  intro fuel
  induction fuel with
  | zero =>
      intro s hpin hlen hmax hnd hent
      have hnil : s.runs = [] := List.eq_nil_of_length_eq_zero (by omega)
      refine ⟨rfl, ?_, hpin, rfl, rfl, rfl, rfl, rfl, rfl, rfl, rfl, ?_⟩
      · show s.runs = s.runs.drop (s.runs.length - s.maxRuns)
        rw [hnil]
        simp
      · exact fun u _ h => h
  | succ fuel ih =>
      intro s hpin hlen hmax hnd hent
      by_cases hcond : s.runs.length > s.maxRuns + s.pinned.length
      · have hplen : s.pinned.length = 0 := by rw [hpin]; rfl
        have hge2 : 2 ≤ s.runs.length := by omega
        rcases hrs : s.runs with _ | ⟨u0, rest⟩
        · rw [hrs] at hge2; simp at hge2
        · have hrest_ne : rest ≠ [] := by
            intro hc
            rw [hrs, hc] at hge2
            simp at hge2
          have hfind : findNonPinnedFrom s.pinned (s.runs.drop 0) 0
              = some (0, u0) := by
            rw [List.drop_zero, hrs, hpin]
            simp [findNonPinnedFrom]
          have hu0ent : rtlHas s.runsToLines u0 = true := by
            apply hent
            rw [hrs]
            rcases hrst : rest with _ | ⟨r1, rest'⟩
            · exact absurd hrst hrest_ne
            · exact List.mem_cons_self u0 _
          have herase : s.runs.eraseIdx 0 = rest := by rw [hrs]; rfl
          have hhasv :
              rtlHas ({ s with runs := s.runs.eraseIdx 0 } : RLState).runsToLines u0
                = true := hu0ent
          obtain ⟨e2, r2, m2, x2, y2, n2, ss2, cs2, ci2, nu2, p2, lk2⟩ :=
            onRunRemoved_ok hhasv
          rcases h2 : onRunRemoved { s with runs := s.runs.eraseIdx 0 } u0
            with ⟨s2, err2⟩
          rw [h2] at e2 r2 m2 x2 y2 n2 ss2 cs2 ci2 nu2 p2 lk2
          simp only at e2 r2 m2 x2 y2 n2 ss2 cs2 ci2 nu2 p2 lk2
          subst e2
          have hunfold : cullFrom s 0 (fuel + 1) = cullFrom s2 0 fuel := by
            simp only [cullFrom, if_pos hcond, hfind, h2]
          have hr2 : s2.runs = rest := by rw [r2, herase]
          have hp2 : s2.pinned = [] := by
            rw [p2, hpin]
            rfl
          have hu0rest : u0 ∉ rest := by
            have := hnd
            rw [hrs, List.nodup_cons] at this
            exact this.1
          have hlk2' : ∀ u, u ≠ u0 →
              rtlHas s2.runsToLines u = rtlHas s.runsToLines u := by
            intro u hu
            simp only [rtlHas, lk2 u hu]
          obtain ⟨ihe, ihr, ihp, ihm, ihx, ihy, ihn, ihss, ihcs, ihci, ihnu,
              ihhas⟩ :=
            ih s2 hp2
              (by
                rw [hr2]
                have : s.runs.length = rest.length + 1 := by rw [hrs]; rfl
                omega)
              (by rw [m2]; exact hmax)
              (by
                rw [hr2]
                have := hnd
                rw [hrs, List.nodup_cons] at this
                exact this.2)
              (by
                intro u hu
                rw [hr2] at hu
                have hune : u ≠ u0 := by
                  intro hc
                  exact hu0rest (hc ▸ (List.dropLast_subset rest hu))
                rw [hlk2' u hune]
                apply hent
                rw [hrs]
                rcases hrst : rest with _ | ⟨r1, rest'⟩
                · rw [hrst] at hu; cases hu
                · rw [hrst] at hu
                  show u ∈ (u0 :: r1 :: rest').dropLast
                  exact List.mem_cons_of_mem u0 hu)
          rw [hunfold]
          refine ⟨ihe, ?_, ihp, ihm.trans m2, ihx.trans x2, ihy.trans y2,
            ihn.trans n2, ihss.trans ss2, ihcs.trans cs2, ihci.trans ci2,
            ihnu.trans nu2, ?_⟩
          · rw [ihr, hr2, m2]
            have hcond' : (u0 :: rest).length > s.maxRuns := by
              rw [← hrs]
              omega
            have hdk : (u0 :: rest).length - s.maxRuns
                = (rest.length - s.maxRuns) + 1 := by
              simp only [List.length_cons] at hcond' ⊢
              omega
            rw [hdk]
            rfl
          · intro u hu hhas
            have humem : u ∈ s2.runs := by
              rw [ihr] at hu
              exact List.drop_subset _ _ hu
            have hune : u ≠ u0 := by
              intro hc
              rw [hr2] at humem
              exact hu0rest (hc ▸ humem)
            apply ihhas u hu
            rw [hlk2' u hune]
            exact hhas
      · have hres : cullFrom s 0 (fuel + 1) = (s, none) := by
          simp only [cullFrom, if_neg hcond]
        rw [hres]
        have hd0 : s.runs.length - s.maxRuns = 0 := by
          have hplen : s.pinned.length = 0 := by rw [hpin]; rfl
          omega
        refine ⟨rfl, ?_, hpin, rfl, rfl, rfl, rfl, rfl, rfl, rfl, rfl, ?_⟩
        · rw [hd0]
          rfl
        · exact fun u _ h => h

/-! ## The line-creation loop of `_add_lines` -/

theorem addLineOne_spec (s : RLState) (r : Run) (y : String) :
    (addLineOne s r y).runs = s.runs ∧
    (addLineOne s r y).pinned = s.pinned ∧
    (addLineOne s r y).maxRuns = s.maxRuns ∧
    (addLineOne s r y).x = s.x ∧
    (addLineOne s r y).ys = s.ys ∧
    (addLineOne s r y).needsStreams = s.needsStreams ∧
    (addLineOne s r y).streamSubs = s.streamSubs ∧
    (addLineOne s r y).nextUuid = s.nextUuid + 1 ∧
    (addLineOne s r y).colorIdx
      = (if r.live then s.colorIdx else s.colorIdx + 1) ∧
    (addLineOne s r y).completeSubs
      = (if r.live then setInsert s.completeSubs r.uid else s.completeSubs) ∧
    (addLineOne s r y).runsToLines = rtlAdd s.runsToLines r.uid s.nextUuid ∧
    (∃ lb dsh, (addLineOne s r y).lines = s.lines ++
      [{ uuid := s.nextUuid, runUid := r.uid, label := lb,
         color := (if r.live then "black" else colorName s.colorIdx),
         dashed := dsh }]) := by
  cases hl : r.live <;> by_cases hp : r.uid ∈ s.pinned <;>
    refine ⟨?_, ?_, ?_, ?_, ?_, ?_, ?_, ?_, ?_, ?_, ?_, ?_⟩ <;>
    simp only [addLineOne, hl, hp, Bool.false_eq_true, if_true, if_false,
      ite_true, ite_false, not_false_iff, not_true] <;>
    first
      | rfl
      | simp
      | exact ⟨_, _, rfl⟩

theorem addLinesLoop_spec (r : Run) :
    ∀ (ys' : List String) (s : RLState),
      (addLinesLoop r ys' s).runs = s.runs ∧
      (addLinesLoop r ys' s).pinned = s.pinned ∧
      (addLinesLoop r ys' s).maxRuns = s.maxRuns ∧
      (addLinesLoop r ys' s).x = s.x ∧
      (addLinesLoop r ys' s).ys = s.ys ∧
      (addLinesLoop r ys' s).needsStreams = s.needsStreams ∧
      (addLinesLoop r ys' s).streamSubs = s.streamSubs ∧
      (addLinesLoop r ys' s).nextUuid = s.nextUuid + ys'.length ∧
      (addLinesLoop r ys' s).colorIdx
        = (if r.live then s.colorIdx else s.colorIdx + ys'.length) ∧
      (∀ u ∈ s.completeSubs, u ∈ (addLinesLoop r ys' s).completeSubs) ∧
      (r.live = true → ys' ≠ [] →
        r.uid ∈ (addLinesLoop r ys' s).completeSubs) ∧
      (r.live = false →
        (addLinesLoop r ys' s).completeSubs = s.completeSubs) ∧
      (∀ u, u ≠ r.uid → rtlLookup (addLinesLoop r ys' s).runsToLines u
        = rtlLookup s.runsToLines u) ∧
      (∀ u, rtlHas s.runsToLines u = true →
        rtlHas (addLinesLoop r ys' s).runsToLines u = true) ∧
      ((∀ u ∈ (rtlLookup s.runsToLines r.uid).getD [], u < s.nextUuid) →
        (rtlLookup (addLinesLoop r ys' s).runsToLines r.uid).getD []
        = (rtlLookup s.runsToLines r.uid).getD []
          ++ List.range' s.nextUuid ys'.length) ∧
      (ys' ≠ [] → rtlHas (addLinesLoop r ys' s).runsToLines r.uid = true) ∧
      (∃ newLines, (addLinesLoop r ys' s).lines = s.lines ++ newLines ∧
        newLines.map Line.uuid = List.range' s.nextUuid ys'.length ∧
        (∀ l ∈ newLines, l.runUid = r.uid ∧
          (r.live = true → l.color = "black") ∧
          (r.live = false → ∃ c, l.color = colorName c))) := by
  intro ys'
  induction ys' with
  | nil =>
      intro s
      have h0 : addLinesLoop r [] s = s := rfl
      rw [h0]
      refine ⟨rfl, rfl, rfl, rfl, rfl, rfl, rfl, by simp,
        by cases r.live <;> simp, fun u h => h, ?_, fun _ => rfl,
        fun u _ => rfl, fun u h => h, fun _ => by simp, ?_,
        ⟨[], by simp, rfl, ?_⟩⟩
      · intro _ hne
        exact absurd rfl hne
      · intro hne
        exact absurd rfl hne
      · intro l hl
        cases hl
  | cons y rest ih =>
      intro s
      obtain ⟨sr, sp, sm, sx, sy, sn, sss, snu, sci, scs, srtl, lb, dsh, sl⟩ :=
        addLineOne_spec s r y
      have hstep : addLinesLoop r (y :: rest) s
          = addLinesLoop r rest (addLineOne s r y) := rfl
      have hhas1 : rtlHas (addLineOne s r y).runsToLines r.uid = true := by
        rw [srtl]
        exact rtlHas_rtlAdd_self _ _ _
      obtain ⟨ir, ip, im, ix, iy, inn, iss, inu, ici, icsMono, icsLive, icsDead,
          ilk, ihasMono, ientry, ihasUid, newLines, inl, inlm, inlp⟩ :=
        ih (addLineOne s r y)
      rw [hstep]
      refine ⟨ir.trans sr, ip.trans sp, im.trans sm, ix.trans sx, iy.trans sy,
        inn.trans sn, iss.trans sss, ?_, ?_, ?_, ?_, ?_, ?_, ?_, ?_, ?_, ?_⟩
      · rw [inu, snu]
        simp only [List.length_cons]
        omega
      · rw [ici, sci]
        cases hl : r.live <;> simp [List.length_cons] <;> omega
      · intro u hu
        apply icsMono
        rw [scs]
        cases hl : r.live with
        | false => simpa [hl] using hu
        | true =>
            simp only [hl, if_true]
            exact mem_setInsert.mpr (Or.inl hu)
      · intro hlive _
        apply icsMono
        rw [scs, hlive]
        simp only [if_true]
        exact self_mem_setInsert
      · intro hlive
        rw [icsDead hlive, scs, hlive]
        simp
      · intro u hu
        rw [ilk u hu, srtl, rtlLookup_rtlAdd_ne _ _ _ _ hu]
      · intro u hu
        apply ihasMono
        by_cases hue : u = r.uid
        · rw [hue]
          exact hhas1
        · rw [srtl]
          simp only [rtlHas, rtlLookup_rtlAdd_ne _ _ _ _ hue]
          exact hu
      · intro hsmall
        have hentry1 : rtlLookup (addLineOne s r y).runsToLines r.uid
            = some ((rtlLookup s.runsToLines r.uid).getD []
              ++ [s.nextUuid]) := by
          rw [srtl, rtlLookup_rtlAdd_self]
          congr 1
          unfold setInsert
          split
          · next hin => exact absurd (hsmall _ hin) (by omega)
          · rfl
        have hsmall1 :
            ∀ u ∈ (rtlLookup (addLineOne s r y).runsToLines r.uid).getD [],
              u < (addLineOne s r y).nextUuid := by
          rw [hentry1, snu]
          intro u hu
          simp only [Option.getD_some, List.mem_append,
            List.mem_singleton] at hu
          rcases hu with h1 | h1
          · exact Nat.lt_succ_of_lt (hsmall u h1)
          · omega
        rw [ientry hsmall1, hentry1, snu]
        simp only [Option.getD_some, List.length_cons]
        rw [List.append_assoc]
        congr 1
      · intro _
        exact ihasMono r.uid hhas1
      · refine ⟨Line.mk s.nextUuid r.uid lb
            (if r.live then "black" else colorName s.colorIdx) dsh :: newLines,
            ?_, ?_, ?_⟩
        · rw [inl, sl, List.append_assoc]
          rfl
        · simp only [List.map_cons, inlm, snu, List.length_cons]
          rfl
        · intro l hl
          rcases List.mem_cons.mp hl with h1 | h1
          · subst h1
            refine ⟨rfl, ?_, ?_⟩
            · intro hlive
              simp [hlive]
            · intro hlive
              exact ⟨s.colorIdx, by simp [hlive]⟩
          · exact inlp l h1

/-! ## The recolor loop of `_on_run_complete` -/

theorem recolorOne_found (s : RLState) (u : Nat)
    (h : s.lines.any (fun l => l.uuid = u) = true) :
    recolorOne s u = { s with
      lines := s.lines.map
        (fun l => if l.uuid = u then { l with color := colorName s.colorIdx }
                  else l),
      colorIdx := s.colorIdx + 1 } := by
  unfold recolorOne
  rw [if_pos h]

theorem recolorOne_missing (s : RLState) (u : Nat)
    (h : ¬ s.lines.any (fun l => l.uuid = u) = true) :
    recolorOne s u = s := by
  unfold recolorOne
  rw [if_neg h]

theorem recolorFold_spec :
    ∀ (uuids : List Nat) (s : RLState),
      (∀ u ∈ uuids, s.lines.any (fun l => l.uuid = u) = true) →
      uuids.Nodup →
      (uuids.foldl recolorOne s).runs = s.runs ∧
      (uuids.foldl recolorOne s).pinned = s.pinned ∧
      (uuids.foldl recolorOne s).maxRuns = s.maxRuns ∧
      (uuids.foldl recolorOne s).x = s.x ∧
      (uuids.foldl recolorOne s).ys = s.ys ∧
      (uuids.foldl recolorOne s).needsStreams = s.needsStreams ∧
      (uuids.foldl recolorOne s).streamSubs = s.streamSubs ∧
      (uuids.foldl recolorOne s).completeSubs = s.completeSubs ∧
      (uuids.foldl recolorOne s).nextUuid = s.nextUuid ∧
      (uuids.foldl recolorOne s).runsToLines = s.runsToLines ∧
      (uuids.foldl recolorOne s).colorIdx = s.colorIdx + uuids.length ∧
      (uuids.foldl recolorOne s).lines.map (fun l => (l.uuid, l.runUid))
        = s.lines.map (fun l => (l.uuid, l.runUid)) ∧
      (∀ l ∈ (uuids.foldl recolorOne s).lines,
        (l.uuid ∈ uuids → ∃ c, l.color = colorName c) ∧
        (l.uuid ∉ uuids → l ∈ s.lines)) := by
  intro uuids
  induction uuids with
  | nil =>
      intro s _ _
      exact ⟨rfl, rfl, rfl, rfl, rfl, rfl, rfl, rfl, rfl, rfl, by simp, rfl,
        fun l hl => ⟨fun hc => absurd hc (List.not_mem_nil _), fun _ => hl⟩⟩
  | cons u rest ih =>
      intro s hany hnd
      have hfound := hany u (List.mem_cons_self u rest)
      have hstep : (u :: rest).foldl recolorOne s
          = rest.foldl recolorOne (recolorOne s u) := rfl
      rw [hstep, recolorOne_found s u hfound]
      set f : Line → Line := fun l =>
        if l.uuid = u then { l with color := colorName s.colorIdx } else l
        with hf
      set s1 : RLState :=
        { s with
          lines := s.lines.map f,
          colorIdx := s.colorIdx + 1 } with hs1
      have hfpair : ∀ l : Line, ((f l).uuid, (f l).runUid) = (l.uuid, l.runUid) := by
        intro l
        by_cases hlu : l.uuid = u <;> simp [hf, hlu]
      have hfuuid : ∀ l : Line, (f l).uuid = l.uuid := by
        intro l
        have := hfpair l
        exact congrArg Prod.fst this
      have hpair1 : s1.lines.map (fun l => (l.uuid, l.runUid))
          = s.lines.map (fun l => (l.uuid, l.runUid)) := by
        show (s.lines.map f).map (fun l => (l.uuid, l.runUid)) = _
        rw [List.map_map]
        apply List.map_congr_left
        intro l _
        exact hfpair l
      have hany1 : ∀ w ∈ rest, s1.lines.any (fun l => l.uuid = w) = true := by
        intro w hw
        have hs : s.lines.any (fun l => l.uuid = w) = true := hany w
          (List.mem_cons_of_mem u hw)
        show (s.lines.map f).any (fun l => l.uuid = w) = true
        rw [List.any_map]
        have : ((fun l : Line => decide (l.uuid = w)) ∘ f)
            = (fun l : Line => decide (l.uuid = w)) := by
          funext l
          simp only [Function.comp_apply, hfuuid l]
        rw [this]
        exact hs
      obtain ⟨ir, ip, im, ix, iy, inn, iss, ics, inu, irtl, ici, ipair, iline⟩ :=
        ih s1 hany1 (List.nodup_cons.mp hnd).2
      have hunotrest : u ∉ rest := (List.nodup_cons.mp hnd).1
      refine ⟨ir, ip, im, ix, iy, inn, iss, ics, inu, irtl, ?_, ipair.trans hpair1,
        ?_⟩
      · rw [ici]
        show s.colorIdx + 1 + rest.length = _
        simp only [List.length_cons]
        omega
      · intro l hl
        constructor
        · intro hmem
          rcases List.mem_cons.mp hmem with h1 | h1
          · have hnotrest : l.uuid ∉ rest := by
              rw [h1]
              exact hunotrest
            have hl1 : l ∈ s1.lines := (iline l hl).2 hnotrest
            show ∃ c, l.color = colorName c
            have : l ∈ s.lines.map f := hl1
            obtain ⟨l0, _, hl0⟩ := List.mem_map.mp this
            by_cases hlu : l0.uuid = u
            · refine ⟨s.colorIdx, ?_⟩
              rw [← hl0]
              simp [hf, hlu]
            · exfalso
              have : l = l0 := by
                rw [← hl0]
                simp [hf, hlu]
              rw [this] at h1
              exact hlu h1
          · exact (iline l hl).1 h1
        · intro hmem
          have hnotrest : l.uuid ∉ rest := fun hc =>
            hmem (List.mem_cons_of_mem u hc)
          have hnotu : l.uuid ≠ u := fun hc =>
            hmem (hc ▸ List.mem_cons_self u rest)
          have hl1 : l ∈ s1.lines := (iline l hl).2 hnotrest
          have : l ∈ s.lines.map f := hl1
          obtain ⟨l0, hl0mem, hl0⟩ := List.mem_map.mp this
          by_cases hlu : l0.uuid = u
          · exfalso
            have : l.uuid = l0.uuid := by
              rw [← hl0]
              exact (hfuuid l0).symm ▸ rfl
            rw [← hl0] at hnotu
            exact hnotu ((hfuuid l0).trans hlu ▸ rfl)
          · have : l = l0 := by
              rw [← hl0]
              simp [hf, hlu]
            rw [this]
            exact hl0mem

theorem rtlHas_rtlGetDefault_self (m : List (Nat × List Nat)) (u : Nat) :
    rtlHas (rtlGetDefault m u).2 u = true := by
  induction m with
  | nil => simp [rtlGetDefault, rtlHas, rtlLookup]
  | cons kv rest ih =>
      obtain ⟨k, v⟩ := kv
      by_cases hk : k = u
      · subst hk
        simp [rtlGetDefault, rtlHas, rtlLookup]
      · simp only [rtlGetDefault, if_neg hk]
        simpa [rtlHas, rtlLookup, hk] using ih

theorem rtlHas_rtlGetDefault_mono (m : List (Nat × List Nat)) (u u' : Nat)
    (h : rtlHas m u' = true) : rtlHas (rtlGetDefault m u).2 u' = true := by
  by_cases hu : u' = u
  · subst hu
    exact rtlHas_rtlGetDefault_self m u'
  · simpa [rtlHas, rtlLookup_rtlGetDefault_ne m u u' hu] using h

theorem recolorOne_frame (s : RLState) (u : Nat) :
    (recolorOne s u).runs = s.runs ∧
    (recolorOne s u).pinned = s.pinned ∧
    (recolorOne s u).maxRuns = s.maxRuns ∧
    (recolorOne s u).x = s.x ∧
    (recolorOne s u).ys = s.ys ∧
    (recolorOne s u).needsStreams = s.needsStreams ∧
    (recolorOne s u).streamSubs = s.streamSubs ∧
    (recolorOne s u).completeSubs = s.completeSubs ∧
    (recolorOne s u).nextUuid = s.nextUuid ∧
    (recolorOne s u).runsToLines = s.runsToLines := by
  unfold recolorOne
  split <;> exact ⟨rfl, rfl, rfl, rfl, rfl, rfl, rfl, rfl, rfl, rfl⟩

theorem recolorFold_frame :
    ∀ (uuids : List Nat) (s : RLState),
      (uuids.foldl recolorOne s).runs = s.runs ∧
      (uuids.foldl recolorOne s).pinned = s.pinned ∧
      (uuids.foldl recolorOne s).maxRuns = s.maxRuns ∧
      (uuids.foldl recolorOne s).x = s.x ∧
      (uuids.foldl recolorOne s).ys = s.ys ∧
      (uuids.foldl recolorOne s).needsStreams = s.needsStreams ∧
      (uuids.foldl recolorOne s).streamSubs = s.streamSubs ∧
      (uuids.foldl recolorOne s).completeSubs = s.completeSubs ∧
      (uuids.foldl recolorOne s).nextUuid = s.nextUuid ∧
      (uuids.foldl recolorOne s).runsToLines = s.runsToLines := by
  intro uuids
  induction uuids with
  | nil => intro s; exact ⟨rfl, rfl, rfl, rfl, rfl, rfl, rfl, rfl, rfl, rfl⟩
  | cons u rest ih =>
      intro s
      obtain ⟨f1, f2, f3, f4, f5, f6, f7, f8, f9, f10⟩ := recolorOne_frame s u
      obtain ⟨g1, g2, g3, g4, g5, g6, g7, g8, g9, g10⟩ := ih (recolorOne s u)
      exact ⟨g1.trans f1, g2.trans f2, g3.trans f3, g4.trans f4, g5.trans f5,
        g6.trans f6, g7.trans f7, g8.trans f8, g9.trans f9, g10.trans f10⟩

/-! ## `_add_lines` under a well-formed registry whose newest entry is the
run being drawn -/

theorem addLines_good (s2 : RLState) (r : Run)
    (hnd : s2.runs.Nodup)
    (hpnd : s2.pinned.Nodup)
    (hpin : ∀ u ∈ s2.pinned, u ∈ s2.runs)
    (hmax : 1 ≤ s2.maxRuns)
    (hys : 1 ≤ s2.ys.length)
    (front : List Nat)
    (hfr : s2.runs = front ++ [r.uid])
    (hent : ∀ u ∈ front, rtlHas s2.runsToLines u = true) :
    (addLines s2 r).2 = none ∧
    (addLines s2 r).1.maxRuns = s2.maxRuns ∧
    (addLines s2 r).1.ys = s2.ys ∧
    (addLines s2 r).1.x = s2.x ∧
    (addLines s2 r).1.needsStreams = s2.needsStreams ∧
    (addLines s2 r).1.streamSubs = s2.streamSubs ∧
    (addLines s2 r).1.pinned = s2.pinned ∧
    CapInv (addLines s2 r).1 ∧
    (addLines s2 r).1.runs.Nodup ∧
    (∀ u ∈ (addLines s2 r).1.pinned, u ∈ (addLines s2 r).1.runs) ∧
    (∀ u ∈ (addLines s2 r).1.runs,
      rtlHas (addLines s2 r).1.runsToLines u = true) := by
  obtain ⟨ce, ⟨front', cf, csub⟩, cm, cp, cx, cy, cn, css, ccs, cci, cnu, ccap,
      chas, cpin⟩ :=
    cullFrom_spec s2.runs.length s2 0 front r.uid hfr (le_refl _)
      (fun k v hk _ => absurd hk (Nat.not_lt_zero k)) hnd hpnd hpin hmax hent
  rcases hc : cullRuns s2 with ⟨s3, err3⟩
  have hcr : cullFrom s2 0 s2.runs.length = (s3, err3) := hc
  rw [hcr] at ce cf cm cp cx cy cn css ccs cci cnu ccap chas cpin
  simp only at ce cf cm cp cx cy cn css ccs cci cnu ccap chas cpin
  subst ce
  have hal : addLines s2 r = (addLinesLoop r s2.ys s3, none) := by
    unfold addLines
    rw [hc]
    rfl
  rw [hal]
  obtain ⟨ir, ip, im, ix, iy, inn, iss, inu, ici, icsMono, icsLive, icsDead,
      ilk, ihasMono, ientry, ihasUid, newLines, inl, inlm, inlp⟩ :=
    addLinesLoop_spec r s2.ys s3
  have hysne : s2.ys ≠ [] := by
    intro hnil
    rw [hnil] at hys
    simp at hys
  refine ⟨rfl, im.trans cm, iy.trans cy, ix.trans cx, inn.trans cn,
    iss.trans css, ip.trans cp, ?_, ?_, ?_, ?_⟩
  · show (addLinesLoop r s2.ys s3).runs.length
      ≤ (addLinesLoop r s2.ys s3).maxRuns
        + (addLinesLoop r s2.ys s3).pinned.length
    rw [ir, im, ip]
    exact ccap
  · rw [ir, cf]
    have h1 : List.Sublist (front' ++ [r.uid]) (front ++ [r.uid]) :=
      List.Sublist.append_right csub [r.uid]
    rw [hfr] at hnd
    exact List.Nodup.sublist h1 hnd
  · intro u hu
    rw [ip, cp] at hu
    rw [ir]
    exact cpin u hu (hpin u hu)
  · intro u hu
    rw [ir, cf] at hu
    rcases List.mem_append.mp hu with h1 | h1
    · apply ihasMono
      apply chas u
      · rw [cf]
        exact List.mem_append.mpr (Or.inl h1)
      · exact hent u (List.Sublist.subset csub h1)
    · rw [List.mem_singleton] at h1
      rw [h1]
      exact ihasUid hysne

/-! ## Preservation of `GoodState` by every safe step -/

theorem addRun_keeps_good (s : RLState) (r : Run) (p : Bool)
    (hs : GoodState s)
    (hstr : needsSubset s.needsStreams r.streams = true) :
    GoodState (addRun s r p).1 ∧ (addRun s r p).2 = none ∧
    (addRun s r p).1.needsStreams = s.needsStreams := by
  obtain ⟨hcap, hnd, hpnd, hpin, hent, hmax, hys, hss⟩ := hs
  have hP : ∃ P, (if p then { s with pinned := setInsert s.pinned r.uid }
        else s) = { s with pinned := P } ∧
      P.Nodup ∧ s.pinned.length ≤ P.length ∧
      (∀ u ∈ P, u ∈ s.pinned ∨ u = r.uid) := by
    cases p
    · exact ⟨s.pinned, by simp, hpnd, le_refl _, fun u hu => Or.inl hu⟩
    · refine ⟨setInsert s.pinned r.uid, by simp, setInsert_nodup hpnd,
        length_le_setInsert, ?_⟩
      intro u hu
      exact mem_setInsert.mp hu
  obtain ⟨P, hPeq, hPnd, hPlen, hPmem⟩ := hP
  by_cases hmem : r.uid ∈ s.runs
  · have haddeq : addRun s r p = ({ s with pinned := P }, none) := by
      unfold addRun
      rw [hPeq]
      rw [if_pos (show r.uid ∈ ({ s with pinned := P } : RLState).runs
        from hmem)]
    rw [haddeq]
    have hcap' : s.runs.length ≤ s.maxRuns + s.pinned.length := hcap
    refine ⟨⟨?_, hnd, hPnd, ?_, hent, hmax, hys, hss⟩, rfl, rfl⟩
    · show s.runs.length ≤ s.maxRuns + P.length
      omega
    · intro u hu
      rcases hPmem u hu with h1 | h1
      · exact hpin u h1
      · exact h1 ▸ hmem
  · have haddeq : addRun s r p
        = addLines { s with pinned := P, runs := s.runs ++ [r.uid] } r := by
      unfold addRun
      rw [hPeq]
      rw [if_neg (show ¬ r.uid ∈ ({ s with pinned := P } : RLState).runs
        from hmem)]
      unfold onRunAdded
      simp only []
      rw [if_pos hstr]
    have hnd2 : (s.runs ++ [r.uid]).Nodup := by
      rw [List.nodup_append]
      refine ⟨hnd, List.nodup_singleton _, ?_⟩
      intro a ha hb
      rw [List.mem_singleton] at hb
      exact hmem (hb ▸ ha)
    obtain ⟨ge, gm, gy, gx, gn, gss, gp, gcap, gnd, gpin, gent⟩ :=
      addLines_good { s with pinned := P, runs := s.runs ++ [r.uid] } r
        hnd2 hPnd
        (by
          intro u hu
          show u ∈ s.runs ++ [r.uid]
          rcases hPmem u hu with h1 | h1
          · exact List.mem_append.mpr (Or.inl (hpin u h1))
          · exact List.mem_append.mpr (Or.inr (by simp [h1])))
        hmax hys s.runs rfl
        (fun u hu => hent u hu)
    rw [haddeq]
    refine ⟨⟨gcap, gnd, ?_, gpin, gent, ?_, ?_, ?_⟩, ge, ?_⟩
    · rw [gp]
      exact hPnd
    · rw [gm]
      exact hmax
    · rw [gy]
      exact hys
    · rw [gss]
      exact hss
    · rw [gn]

theorem applyOp_good (s : RLState) (op : Op) (hs : GoodState s)
    (hop : OpSafe s.needsStreams op) :
    GoodState (applyOp s op).1 ∧ (applyOp s op).2 = none ∧
    (applyOp s op).1.needsStreams = s.needsStreams := by
  obtain ⟨hcap, hnd, hpnd, hpin, hent, hmax, hys, hss⟩ := hs
  cases op with
  | add r p =>
      exact addRun_keeps_good s r p
        ⟨hcap, hnd, hpnd, hpin, hent, hmax, hys, hss⟩ hop
  | discard uid =>
      show GoodState (discardRun s uid).1 ∧ (discardRun s uid).2 = none ∧
        (discardRun s uid).1.needsStreams = s.needsStreams
      by_cases hmem : uid ∈ s.runs
      · have hdeq : discardRun s uid
            = onRunRemoved { s with runs := s.runs.erase uid } uid := by
          unfold discardRun
          rw [if_pos hmem]
        have hhas : rtlHas ({ s with runs := s.runs.erase uid }
            : RLState).runsToLines uid = true := hent uid hmem
        obtain ⟨e2, r2, m2, x2, y2, n2, ss2, cs2, ci2, nu2, p2, lk2⟩ :=
          onRunRemoved_ok hhas
        rw [hdeq]
        have hcap' : s.runs.length ≤ s.maxRuns + s.pinned.length := hcap
        have hlenerase : (s.runs.erase uid).length + 1 = s.runs.length := by
          rw [List.length_erase_of_mem hmem]
          have : s.runs.length ≠ 0 := by
            intro hc
            rw [List.length_eq_zero] at hc
            rw [hc] at hmem
            cases hmem
          omega
        refine ⟨⟨?_, ?_, ?_, ?_, ?_, ?_, ?_, ?_⟩, e2, by rw [n2]⟩
        · show (onRunRemoved { s with runs := s.runs.erase uid } uid).1.runs.length
            ≤ _ + (onRunRemoved { s with runs := s.runs.erase uid } uid).1.pinned.length
          rw [r2, m2, p2]
          show (s.runs.erase uid).length ≤ s.maxRuns + (setRemove s.pinned uid).length
          by_cases hup : uid ∈ s.pinned
          · have := setRemove_length hpnd hup
            omega
          · rw [setRemove_of_not_mem hup]
            omega
        · rw [r2]
          exact List.Nodup.sublist (List.erase_sublist uid s.runs) hnd
        · rw [p2]
          exact setRemove_nodup hpnd
        · intro u hu
          rw [p2] at hu
          rw [r2]
          obtain ⟨hu1, hu2⟩ := mem_setRemove.mp hu
          show u ∈ s.runs.erase uid
          rw [List.mem_erase_of_ne hu2]
          exact hpin u hu1
        · intro u hu
          rw [r2] at hu
          have hu' : u ≠ uid ∧ u ∈ s.runs := by
            have := (List.Nodup.mem_erase_iff hnd).mp hu
            exact this
          simp only [rtlHas, lk2 u hu'.1]
          exact hent u hu'.2
        · rw [m2]
          exact hmax
        · rw [y2]
          exact hys
        · rw [ss2]
          exact hss
      · have hdeq : discardRun s uid = (s, none) := by
          unfold discardRun
          rw [if_neg hmem]
        rw [hdeq]
        exact ⟨⟨hcap, hnd, hpnd, hpin, hent, hmax, hys, hss⟩, rfl, rfl⟩
  | setMax n =>
      show GoodState (setMaxRuns s n).1 ∧ (setMaxRuns s n).2 = none ∧
        (setMaxRuns s n).1.needsStreams = s.needsStreams
      have hn : 1 ≤ n := hop
      rcases List.eq_nil_or_concat s.runs with hnil | ⟨L, b, hLb⟩
      · have hnoop : setMaxRuns s n = ({ s with maxRuns := n }, none) := by
          show cullRuns { s with maxRuns := n } = _
          apply cull_noop
          show ¬ s.runs.length > n + s.pinned.length
          rw [hnil]
          simp
        rw [hnoop]
        refine ⟨⟨?_, hnd, hpnd, hpin, hent, hn, hys, hss⟩, rfl, rfl⟩
        show s.runs.length ≤ n + s.pinned.length
        rw [hnil]
        simp
      · rw [List.concat_eq_append] at hLb
        have hseq : setMaxRuns s n
            = cullFrom { s with maxRuns := n } 0
              ({ s with maxRuns := n } : RLState).runs.length := rfl
        obtain ⟨ce, ⟨front', cf, csub⟩, cm, cp, cx, cy, cn, css, ccs, cci, cnu,
            ccap, chas, cpin⟩ :=
          cullFrom_spec ({ s with maxRuns := n } : RLState).runs.length
            { s with maxRuns := n } 0 L b (by show s.runs = L ++ [b]; exact hLb)
            (le_refl _)
            (fun k v hk _ => absurd hk (Nat.not_lt_zero k))
            hnd hpnd hpin hn
            (by
              intro u hu
              apply hent
              rw [hLb]
              exact List.mem_append.mpr (Or.inl hu))
        rw [hseq]
        refine ⟨⟨ccap, ?_, ?_, ?_, ?_, ?_, ?_, ?_⟩, ce, by rw [cn]⟩
        · rw [cf]
          have h1 : List.Sublist (front' ++ [b]) (L ++ [b]) :=
            List.Sublist.append_right csub [b]
          rw [show (L ++ [b]) = s.runs from hLb.symm] at h1
          exact List.Nodup.sublist h1 hnd
        · rw [cp]
          exact hpnd
        · intro u hu
          rw [cp] at hu
          exact cpin u hu (hpin u hu)
        · intro u hu
          apply chas u hu
          apply hent
          have hmem2 : u ∈ front' ++ [b] := cf ▸ hu
          rcases List.mem_append.mp hmem2 with h1 | h1
          · rw [hLb]
            exact List.mem_append.mpr (Or.inl (List.Sublist.subset csub h1))
          · rw [hLb]
            exact List.mem_append.mpr (Or.inr h1)
        · rw [cm]
          exact hn
        · rw [cy]
          exact hys
        · rw [css]
          exact hss
  | newStream r =>
      have heq : fireNewStream s r = (s, none) := by
        unfold fireNewStream
        rw [hss]
        rw [if_neg (List.not_mem_nil r.uid)]
      show GoodState (fireNewStream s r).1 ∧ (fireNewStream s r).2 = none ∧
        (fireNewStream s r).1.needsStreams = s.needsStreams
      rw [heq]
      exact ⟨⟨hcap, hnd, hpnd, hpin, hent, hmax, hys, hss⟩, rfl, rfl⟩
  | completed uid =>
      show GoodState (fireCompleted s uid).1 ∧ (fireCompleted s uid).2 = none ∧
        (fireCompleted s uid).1.needsStreams = s.needsStreams
      by_cases hmem : uid ∈ s.completeSubs
      · have heq : fireCompleted s uid
            = ((rtlGetDefault s.runsToLines uid).1.foldl recolorOne
                { s with runsToLines := (rtlGetDefault s.runsToLines uid).2 },
               none) := by
          unfold fireCompleted
          rw [if_pos hmem]
        rw [heq]
        obtain ⟨f1, f2, f3, f4, f5, f6, f7, f8, f9, f10⟩ :=
          recolorFold_frame (rtlGetDefault s.runsToLines uid).1
            { s with runsToLines := (rtlGetDefault s.runsToLines uid).2 }
        refine ⟨⟨?_, ?_, ?_, ?_, ?_, ?_, ?_, ?_⟩, rfl, by rw [f6]⟩
        · show _ ≤ _
          rw [f1, f2, f3]
          exact hcap
        · rw [f1]
          exact hnd
        · rw [f2]
          exact hpnd
        · intro u hu
          rw [f2] at hu
          rw [f1]
          exact hpin u hu
        · intro u hu
          rw [f1] at hu
          rw [f10]
          show rtlHas (rtlGetDefault s.runsToLines uid).2 u = true
          exact rtlHas_rtlGetDefault_mono _ _ _ (hent u hu)
        · rw [f3]
          exact hmax
        · rw [f5]
          exact hys
        · rw [f7]
          exact hss
      · have heq : fireCompleted s uid = (s, none) := by
          unfold fireCompleted
          rw [if_neg hmem]
        rw [heq]
        exact ⟨⟨hcap, hnd, hpnd, hpin, hent, hmax, hys, hss⟩, rfl, rfl⟩

theorem execOps_good :
    ∀ (ops : List Op) (s : RLState),
      GoodState s → (∀ op ∈ ops, OpSafe s.needsStreams op) →
      GoodState (execOps s ops).1 ∧ (execOps s ops).2 = none ∧
      (execOps s ops).1.needsStreams = s.needsStreams := by
  intro ops
  induction ops with
  | nil =>
      intro s hs _
      exact ⟨hs, rfl, rfl⟩
  | cons op rest ih =>
      intro s hs hops
      obtain ⟨hg, he, hn⟩ := applyOp_good s op hs
        (hops op (List.mem_cons_self op rest))
      rcases ha : applyOp s op with ⟨s1, err⟩
      rw [ha] at hg he hn
      simp only at hg he hn
      subst he
      have hex : execOps s (op :: rest) = execOps s1 rest := by
        show (match applyOp s op with
          | (s2, some e) => (s2, some e)
          | (s2, none) => execOps s2 rest) = execOps s1 rest
        rw [ha]
      rw [hex]
      obtain ⟨g2, e2, n2⟩ := ih s1 hg
        (by
          intro o ho
          show OpSafe s1.needsStreams o
          rw [hn]
          exact hops o (List.mem_cons_of_mem op ho))
      exact ⟨g2, e2, n2.trans hn⟩

/-! ## FIFO behavior of repeated unpinned admissions -/

theorem addRun_noPin_step (s : RLState) (r : Run)
    (hpin : s.pinned = []) (hnd : s.runs.Nodup) (hmax : 1 ≤ s.maxRuns)
    (hys : 1 ≤ s.ys.length) (hcap : s.runs.length ≤ s.maxRuns)
    (hent : ∀ u ∈ s.runs, rtlHas s.runsToLines u = true)
    (hstr : needsSubset s.needsStreams r.streams = true)
    (hfresh : r.uid ∉ s.runs) :
    (addRun s r false).2 = none ∧
    (addRun s r false).1.runs
      = (s.runs ++ [r.uid]).drop (s.runs.length + 1 - s.maxRuns) ∧
    (addRun s r false).1.pinned = [] ∧
    (addRun s r false).1.maxRuns = s.maxRuns ∧
    (addRun s r false).1.ys = s.ys ∧
    (addRun s r false).1.needsStreams = s.needsStreams ∧
    (addRun s r false).1.runs.Nodup ∧
    (addRun s r false).1.runs.length ≤ s.maxRuns ∧
    (∀ u ∈ (addRun s r false).1.runs,
      rtlHas (addRun s r false).1.runsToLines u = true) := by
  have haddeq : addRun s r false
      = addLines { s with runs := s.runs ++ [r.uid] } r := by
    unfold addRun
    simp only [Bool.false_eq_true, if_false]
    rw [if_neg hfresh]
    unfold onRunAdded
    simp only []
    rw [if_pos hstr]
  have hnd2 : (s.runs ++ [r.uid]).Nodup := by
    rw [List.nodup_append]
    refine ⟨hnd, List.nodup_singleton _, ?_⟩
    intro a ha hb
    rw [List.mem_singleton] at hb
    exact hfresh (hb ▸ ha)
  obtain ⟨ce, cr, cp, cm, cx, cy, cn, css, ccs, cci, cnu, chas⟩ :=
    cullFrom_no_pin ({ s with runs := s.runs ++ [r.uid] } : RLState).runs.length
      { s with runs := s.runs ++ [r.uid] }
      hpin (le_refl _) hmax hnd2
      (by
        intro u hu
        apply hent
        have : u ∈ s.runs := by
          rw [show ({ s with runs := s.runs ++ [r.uid] } : RLState).runs.dropLast
            = s.runs from by simp [List.dropLast_concat]] at hu
          exact hu
        exact this)
  rcases hc : cullRuns { s with runs := s.runs ++ [r.uid] } with ⟨s3, err3⟩
  have hcr : cullFrom { s with runs := s.runs ++ [r.uid] } 0
      ({ s with runs := s.runs ++ [r.uid] } : RLState).runs.length
      = (s3, err3) := hc
  rw [hcr] at ce cr cp cm cx cy cn css ccs cci cnu chas
  simp only at ce cr cp cm cx cy cn css ccs cci cnu chas
  subst ce
  have hal : addLines { s with runs := s.runs ++ [r.uid] } r
      = (addLinesLoop r s.ys s3, none) := by
    unfold addLines
    rw [hc]
    rfl
  obtain ⟨ir, ip, im, ix, iy, inn, iss, inu, ici, icsMono, icsLive, icsDead,
      ilk, ihasMono, ientry, ihasUid, newLines, inl, inlm, inlp⟩ :=
    addLinesLoop_spec r s.ys s3
  have hysne : s.ys ≠ [] := by
    intro hnil
    rw [hnil] at hys
    simp at hys
  have hlen2 : ({ s with runs := s.runs ++ [r.uid] } : RLState).runs.length
      = s.runs.length + 1 := by
    simp
  rw [haddeq, hal]
  have hr3 : s3.runs = (s.runs ++ [r.uid]).drop (s.runs.length + 1 - s.maxRuns) := by
    rw [cr, hlen2]
  refine ⟨rfl, ?_, ?_, ?_, ?_, ?_, ?_, ?_, ?_⟩
  · rw [ir, hr3]
  · rw [ip, cp]
  · rw [im, cm]
  · rw [iy, cy]
  · rw [inn, cn]
  · rw [ir, hr3]
    exact List.Nodup.sublist (List.drop_sublist _ _) hnd2
  · rw [ir, hr3, List.length_drop]
    simp only [List.length_append, List.length_cons, List.length_nil]
    omega
  · intro u hu
    rw [ir] at hu
    by_cases hue : u = r.uid
    · rw [hue]
      exact ihasUid hysne
    · apply ihasMono
      apply chas u hu
      have humem : u ∈ s.runs ++ [r.uid] := by
        rw [hr3] at hu
        exact List.drop_subset _ _ hu
      rcases List.mem_append.mp humem with h1 | h1
      · exact hent u h1
      · rw [List.mem_singleton] at h1
        exact absurd h1 hue

theorem addSeq_noPin :
    ∀ (rs : List Run) (s : RLState),
      s.pinned = [] → s.runs.Nodup → 1 ≤ s.maxRuns → 1 ≤ s.ys.length →
      s.runs.length ≤ s.maxRuns →
      (∀ u ∈ s.runs, rtlHas s.runsToLines u = true) →
      (∀ r ∈ rs, needsSubset s.needsStreams r.streams = true) →
      (∀ r ∈ rs, r.uid ∉ s.runs) →
      (rs.map Run.uid).Nodup →
      (execOps s (rs.map (fun r => Op.add r false))).2 = none ∧
      (execOps s (rs.map (fun r => Op.add r false))).1.runs
        = (s.runs ++ rs.map Run.uid).drop
            (s.runs.length + rs.length - s.maxRuns) := by
  intro rs
  induction rs with
  | nil =>
      intro s hpin hnd hmax hys hcap hent _ _ _
      have h0 : s.runs.length + ([] : List Run).length - s.maxRuns = 0 := by
        simp only [List.length_nil]
        omega
      refine ⟨rfl, ?_⟩
      show s.runs = _
      rw [h0]
      simp
  | cons r rest ih =>
      intro s hpin hnd hmax hys hcap hent hstr hfresh hndu
      obtain ⟨se, sr, sp, sm, sy, sn, snd, scap, sent⟩ :=
        addRun_noPin_step s r hpin hnd hmax hys hcap hent
          (hstr r (List.mem_cons_self r rest))
          (hfresh r (List.mem_cons_self r rest))
      rcases ha : addRun s r false with ⟨s1, err⟩
      rw [ha] at se sr sp sm sy sn snd scap sent
      simp only at se sr sp sm sy sn snd scap sent
      subst se
      have hex : execOps s ((r :: rest).map (fun r => Op.add r false))
          = execOps s1 (rest.map (fun r => Op.add r false)) := by
        show (match applyOp s (Op.add r false) with
          | (s2, some e) => (s2, some e)
          | (s2, none) => execOps s2 (rest.map (fun r => Op.add r false)))
          = _
        show (match addRun s r false with
          | (s2, some e) => (s2, some e)
          | (s2, none) => execOps s2 (rest.map (fun r => Op.add r false)))
          = _
        rw [ha]
      rw [hex]
      have hsub1 : ∀ u, u ∈ s1.runs → u ∈ s.runs ++ [r.uid] := by
        intro u hu
        rw [sr] at hu
        exact List.drop_subset _ _ hu
      obtain ⟨e2, r2⟩ := ih s1 sp snd (by rw [sm]; exact hmax)
        (by rw [sy]; exact hys) (by rw [sm]; exact scap) sent
        (by
          intro r' hr'
          rw [sn]
          exact hstr r' (List.mem_cons_of_mem r hr'))
        (by
          intro r' hr' hmem
          rcases List.mem_append.mp (hsub1 r'.uid hmem) with h1 | h1
          · exact hfresh r' (List.mem_cons_of_mem r hr') h1
          · rw [List.mem_singleton] at h1
            have : r.uid ∈ rest.map Run.uid :=
              List.mem_map.mpr ⟨r', hr', h1⟩
            have hnd2 := hndu
            simp only [List.map_cons, List.nodup_cons] at hnd2
            exact hnd2.1 this)
        (by
          have hnd2 := hndu
          simp only [List.map_cons, List.nodup_cons] at hnd2
          exact hnd2.2)
      refine ⟨e2, ?_⟩
      rw [r2, sr, sm]
      have hk1 : s.runs.length + 1 - s.maxRuns ≤ (s.runs ++ [r.uid]).length := by
        simp only [List.length_append, List.length_cons, List.length_nil]
        omega
      rw [← List.drop_append_of_le_length hk1]
      rw [List.drop_drop]
      have hlist : s.runs ++ [r.uid] ++ List.map Run.uid rest
          = s.runs ++ List.map Run.uid (r :: rest) := by
        rw [List.map_cons, List.append_assoc]
        rfl
      rw [hlist]
      congr 1
      simp only [List.length_drop, List.length_append, List.length_cons,
        List.length_nil]
      omega

/-! ## Pinned runs survive everything except their own discard -/

theorem onRunRemoved_frame (s : RLState) (v : Nat) :
    (onRunRemoved s v).1.pinned = setRemove s.pinned v ∧
    (onRunRemoved s v).1.runs = s.runs := by
  cases hpop : rtlPop s.runsToLines v with
  | none =>
      simp only [onRunRemoved, hpop]
      constructor <;> first | rfl | trivial
  | some p =>
      obtain ⟨uuids, m'⟩ := p
      simp only [onRunRemoved, hpop]
      constructor <;> first | rfl | trivial

theorem cullFrom_pinned_persist :
    ∀ (fuel : Nat) (s : RLState) (i uid : Nat),
      uid ∈ s.pinned → uid ∈ s.runs →
      uid ∈ (cullFrom s i fuel).1.pinned ∧ uid ∈ (cullFrom s i fuel).1.runs := by
  intro fuel
  induction fuel with
  | zero => exact fun s i uid hp hr => ⟨hp, hr⟩
  | succ fuel ih =>
      intro s i uid hp hr
      by_cases hcond : s.runs.length > s.maxRuns + s.pinned.length
      · rcases hfind : findNonPinnedFrom s.pinned (s.runs.drop i) i
          with _ | ⟨j, v⟩
        · have hres : cullFrom s i (fuel + 1) = (s, some PyErr.indexError) := by
            simp only [cullFrom, if_pos hcond, hfind]
          rw [hres]
          exact ⟨hp, hr⟩
        · obtain ⟨hij, hjlt, hjget, hvnp, _⟩ := findNonPinnedFrom_some_bw hfind
          have hget : s.runs.get? j = some v := by
            rw [get?_drop_bw] at hjget
            have heq : i + (j - i) = j := by omega
            rwa [heq] at hjget
          have hvne : uid ≠ v := by
            intro hc
            exact hvnp (hc ▸ hp)
          have hrr : uid ∈ s.runs.eraseIdx j :=
            mem_eraseIdx_of_ne_bw hget hr hvne
          obtain ⟨fp, fr⟩ :=
            onRunRemoved_frame { s with runs := s.runs.eraseIdx j } v
          have hup : uid ∈ (onRunRemoved
              { s with runs := s.runs.eraseIdx j } v).1.pinned := by
            rw [fp]
            exact mem_setRemove.mpr ⟨hp, hvne⟩
          have hur : uid ∈ (onRunRemoved
              { s with runs := s.runs.eraseIdx j } v).1.runs := by
            rw [fr]
            exact hrr
          rcases h2 : onRunRemoved { s with runs := s.runs.eraseIdx j } v
            with ⟨s2, err2⟩
          rw [h2] at hup hur
          simp only at hup hur
          cases err2 with
          | none =>
              have hres : cullFrom s i (fuel + 1) = cullFrom s2 j fuel := by
                simp only [cullFrom, if_pos hcond, hfind, h2]
              rw [hres]
              exact ih s2 j uid hup hur
          | some e =>
              have hres : cullFrom s i (fuel + 1) = (s2, some e) := by
                simp only [cullFrom, if_pos hcond, hfind, h2]
              rw [hres]
              exact ⟨hup, hur⟩
      · have hres : cullFrom s i (fuel + 1) = (s, none) := by
          simp only [cullFrom, if_neg hcond]
        rw [hres]
        exact ⟨hp, hr⟩

theorem addLines_pinned_persist (s : RLState) (r : Run) (uid : Nat)
    (hp : uid ∈ s.pinned) (hr : uid ∈ s.runs) :
    uid ∈ (addLines s r).1.pinned ∧ uid ∈ (addLines s r).1.runs := by
  obtain ⟨cp, cr⟩ := cullFrom_pinned_persist s.runs.length s 0 uid hp hr
  rcases hc : cullRuns s with ⟨s3, err3⟩
  have hcr : cullFrom s 0 s.runs.length = (s3, err3) := hc
  rw [hcr] at cp cr
  simp only at cp cr
  cases err3 with
  | none =>
      have hal : addLines s r = (addLinesLoop r s.ys s3, none) := by
        unfold addLines
        rw [hc]
        rfl
      rw [hal]
      obtain ⟨ir, ip, _⟩ := addLinesLoop_spec r s.ys s3
      constructor
      · rw [ip]
        exact cp
      · rw [ir]
        exact cr
  | some e =>
      have hal : addLines s r = (s3, some e) := by
        unfold addLines
        rw [hc]
      rw [hal]
      exact ⟨cp, cr⟩

theorem pinned_persists_step (s : RLState) (uid : Nat) (op : Op)
    (hp : uid ∈ s.pinned) (hr : uid ∈ s.runs) (hop : op ≠ Op.discard uid) :
    uid ∈ (applyOp s op).1.pinned ∧ uid ∈ (applyOp s op).1.runs := by
  cases op with
  | add r p =>
      show uid ∈ (addRun s r p).1.pinned ∧ uid ∈ (addRun s r p).1.runs
      have hP : ∃ P, (if p then { s with pinned := setInsert s.pinned r.uid }
            else s) = { s with pinned := P } ∧ uid ∈ P := by
        cases p
        · exact ⟨s.pinned, by simp, hp⟩
        · exact ⟨setInsert s.pinned r.uid, by simp,
            mem_setInsert.mpr (Or.inl hp)⟩
      obtain ⟨P, hPeq, hPmem⟩ := hP
      by_cases hmem : r.uid ∈ s.runs
      · have haddeq : addRun s r p = ({ s with pinned := P }, none) := by
          unfold addRun
          rw [hPeq]
          rw [if_pos (show r.uid ∈ ({ s with pinned := P } : RLState).runs
            from hmem)]
        rw [haddeq]
        exact ⟨hPmem, hr⟩
      · have haddeq : addRun s r p
            = onRunAdded { s with pinned := P, runs := s.runs ++ [r.uid] } r := by
          unfold addRun
          rw [hPeq]
          rw [if_neg (show ¬ r.uid ∈ ({ s with pinned := P } : RLState).runs
            from hmem)]
        rw [haddeq]
        unfold onRunAdded
        by_cases hstr : needsSubset s.needsStreams r.streams = true
        · rw [if_pos hstr]
          exact addLines_pinned_persist _ r uid hPmem
            (List.mem_append.mpr (Or.inl hr))
        · rw [if_neg hstr]
          exact ⟨hPmem, List.mem_append.mpr (Or.inl hr)⟩
  | discard uid' =>
      show uid ∈ (discardRun s uid').1.pinned ∧ uid ∈ (discardRun s uid').1.runs
      have hne : uid' ≠ uid := by
        intro hc
        exact hop (by rw [hc])
      by_cases hmem : uid' ∈ s.runs
      · have hdeq : discardRun s uid'
            = onRunRemoved { s with runs := s.runs.erase uid' } uid' := by
          unfold discardRun
          rw [if_pos hmem]
        rw [hdeq]
        obtain ⟨fp, fr⟩ :=
          onRunRemoved_frame { s with runs := s.runs.erase uid' } uid'
        constructor
        · rw [fp]
          exact mem_setRemove.mpr ⟨hp, Ne.symm hne⟩
        · rw [fr]
          show uid ∈ s.runs.erase uid'
          rw [List.mem_erase_of_ne (Ne.symm hne)]
          exact hr
      · have hdeq : discardRun s uid' = (s, none) := by
          unfold discardRun
          rw [if_neg hmem]
        rw [hdeq]
        exact ⟨hp, hr⟩
  | setMax n =>
      show uid ∈ (setMaxRuns s n).1.pinned ∧ uid ∈ (setMaxRuns s n).1.runs
      exact cullFrom_pinned_persist _ { s with maxRuns := n } 0 uid hp hr
  | newStream r =>
      show uid ∈ (fireNewStream s r).1.pinned ∧ uid ∈ (fireNewStream s r).1.runs
      unfold fireNewStream
      by_cases hsub : r.uid ∈ s.streamSubs
      · rw [if_pos hsub]
        by_cases hstr : needsSubset s.needsStreams r.streams = true
        · rw [if_pos hstr]
          obtain ⟨ap, ar⟩ := addLines_pinned_persist s r uid hp hr
          rcases ha : addLines s r with ⟨s1, err1⟩
          rw [ha] at ap ar
          simp only at ap ar
          cases err1 with
          | none => exact ⟨ap, ar⟩
          | some e => exact ⟨ap, ar⟩
        · rw [if_neg hstr]
          exact ⟨hp, hr⟩
      · rw [if_neg hsub]
        exact ⟨hp, hr⟩
  | completed uid' =>
      show uid ∈ (fireCompleted s uid').1.pinned
        ∧ uid ∈ (fireCompleted s uid').1.runs
      unfold fireCompleted
      by_cases hmem : uid' ∈ s.completeSubs
      · rw [if_pos hmem]
        obtain ⟨f1, f2, _⟩ :=
          recolorFold_frame (rtlGetDefault s.runsToLines uid').1
            { s with runsToLines := (rtlGetDefault s.runsToLines uid').2 }
        constructor
        · show uid ∈ ((rtlGetDefault s.runsToLines uid').1.foldl recolorOne
            { s with runsToLines := (rtlGetDefault s.runsToLines uid').2 }).pinned
          rw [f2]
          exact hp
        · show uid ∈ ((rtlGetDefault s.runsToLines uid').1.foldl recolorOne
            { s with runsToLines := (rtlGetDefault s.runsToLines uid').2 }).runs
          rw [f1]
          exact hr
      · rw [if_neg hmem]
        exact ⟨hp, hr⟩

theorem pinned_persists_exec :
    ∀ (ops : List Op) (s : RLState) (uid : Nat),
      uid ∈ s.pinned → uid ∈ s.runs → (∀ op ∈ ops, op ≠ Op.discard uid) →
      uid ∈ (execOps s ops).1.pinned ∧ uid ∈ (execOps s ops).1.runs := by
  intro ops
  induction ops with
  | nil => exact fun s uid hp hr _ => ⟨hp, hr⟩
  | cons op rest ih =>
      intro s uid hp hr hops
      obtain ⟨hp1, hr1⟩ := pinned_persists_step s uid op hp hr
        (hops op (List.mem_cons_self op rest))
      rcases ha : applyOp s op with ⟨s1, err⟩
      rw [ha] at hp1 hr1
      simp only at hp1 hr1
      cases err with
      | none =>
          have hex : execOps s (op :: rest) = execOps s1 rest := by
            show (match applyOp s op with
              | (s2, some e) => (s2, some e)
              | (s2, none) => execOps s2 rest) = execOps s1 rest
            rw [ha]
          rw [hex]
          exact ih s1 uid hp1 hr1
            (fun o ho => hops o (List.mem_cons_of_mem op ho))
      | some e =>
          have hex : execOps s (op :: rest) = (s1, some e) := by
            show (match applyOp s op with
              | (s2, some e) => (s2, some e)
              | (s2, none) => execOps s2 rest) = (s1, some e)
            rw [ha]
          rw [hex]
          exact ⟨hp1, hr1⟩

/-! ## Remaining helpers for the recoloring claim -/

theorem colorName_ne_black (c : Nat) : colorName c ≠ "black" := by
  unfold colorName
  have h : c % 10 < 10 := Nat.mod_lt c (by omega)
  set d := c % 10 with hd
  interval_cases d <;> decide

theorem filter_length_pair (u : Nat) :
    ∀ (xs ys : List Line),
      xs.map (fun l => (l.uuid, l.runUid)) = ys.map (fun l => (l.uuid, l.runUid)) →
      (xs.filter (fun l => l.runUid = u)).length
        = (ys.filter (fun l => l.runUid = u)).length := by
  intro xs
  induction xs with
  | nil =>
      intro ys h
      cases ys with
      | nil => rfl
      | cons y ys => simp at h
  | cons x xs ih =>
      intro ys h
      cases ys with
      | nil => simp at h
      | cons y ys =>
          simp only [List.map_cons, List.cons.injEq] at h
          obtain ⟨hpair, hrest⟩ := h
          have hru : x.runUid = y.runUid := congrArg Prod.snd hpair
          simp only [List.filter_cons, hru]
          by_cases hc : y.runUid = u
          · simp [hc, ih ys hrest]
          · simp [hc, ih ys hrest]

theorem middleSlice_shape {α : Type} (a : NArr α) (d : Nat) (ds : List Nat)
    (h : a.shape = d :: ds) : (middleSlice a).shape = ds := by
  obtain ⟨sh, fl⟩ := a
  simp only at h
  subst h
  rfl

theorem imageTransformGo_eq_iterate {α : Type} :
    ∀ (n fuel : Nat) (a : NArr α), a.shape.length = n + 2 → n ≤ fuel →
      imageTransformGo fuel a = middleSlice^[n] a := by
  intro n
  induction n with
  | zero =>
      intro fuel a hlen _
      cases fuel with
      | zero => rfl
      | succ f =>
          show (if 2 < a.shape.length then imageTransformGo f (middleSlice a)
            else a) = _
          rw [if_neg (by omega)]
          rfl
  | succ n ih =>
      intro fuel a hlen hle
      cases fuel with
      | zero => omega
      | succ f =>
          show (if 2 < a.shape.length then imageTransformGo f (middleSlice a)
            else a) = _
          rw [if_pos (by omega)]
          have hne : a.shape ≠ [] := by
            intro hc
            rw [hc] at hlen
            simp at hlen
          obtain ⟨d, ds, hds⟩ := List.exists_cons_of_ne_nil hne
          have hms : (middleSlice a).shape.length = n + 2 := by
            rw [middleSlice_shape a d ds hds]
            rw [hds] at hlen
            simpa using hlen
          rw [ih f (middleSlice a) hms (by omega)]
          exact (Function.iterate_succ_apply middleSlice n a).symm

/-! ## Claim theorems -/

/-- C5: for `RasteredImage` with `shape = (2, 3)` and run metadata
`snaking = (False, True)`, the transform places the 1D field data
`[0, 1, 2, 3, 4, 5]` as the grid `[[0, 1, 2], [5, 4, 3]]` — the odd row is
mirrored in the column axis; with `snaking = (False, False)` the same
input gives the plain row-major grid `[[0, 1, 2], [3, 4, 5]]`. -/
theorem raster_snaking_roundtrip :
    rasterTransform (2, 3) (false, true) ([0, 1, 2, 3, 4, 5] : List Int)
      = Except.ok [[some 0, some 1, some 2], [some 5, some 4, some 3]] ∧
    rasterTransform (2, 3) (false, false) ([0, 1, 2, 3, 4, 5] : List Int)
      = Except.ok [[some 0, some 1, some 2], [some 3, some 4, some 5]] := by
  decide

/-- C3 (the code at the failing input): with `max_runs = 1`,
`ys = ["det"]`, `needs_streams = ["primary"]`, adding a run that has no
streams defers activation and creates no lines; discarding that run then
raises `KeyError` (from `self._runs_to_lines.pop(uid)` — a `defaultdict`'s
factory does not apply to `pop`), the pending `_on_new_stream`
subscription stays connected, and firing the stream notification for the
already-discarded run afterwards creates one line without error. The
claim's expected behavior (silent discard, deregistered subscription, no
elements) is therefore violated by the code. -/
theorem discard_before_activation_eval :
    (execOps (mkRL 1 "motor" ["det"] ["primary"])
      [Op.add (Run.mk 1 1 [] true) false]).2 = none ∧
    (execOps (mkRL 1 "motor" ["det"] ["primary"])
      [Op.add (Run.mk 1 1 [] true) false]).1.lines = [] ∧
    (execOps (mkRL 1 "motor" ["det"] ["primary"])
      [Op.add (Run.mk 1 1 [] true) false]).1.runs = [1] ∧
    (discardRun (execOps (mkRL 1 "motor" ["det"] ["primary"])
      [Op.add (Run.mk 1 1 [] true) false]).1 1).2 = some PyErr.keyError ∧
    (discardRun (execOps (mkRL 1 "motor" ["det"] ["primary"])
      [Op.add (Run.mk 1 1 [] true) false]).1 1).1.runs = [] ∧
    1 ∈ (discardRun (execOps (mkRL 1 "motor" ["det"] ["primary"])
      [Op.add (Run.mk 1 1 [] true) false]).1 1).1.streamSubs ∧
    (fireNewStream (discardRun (execOps (mkRL 1 "motor" ["det"] ["primary"])
      [Op.add (Run.mk 1 1 [] true) false]).1 1).1
      (Run.mk 1 1 ["primary"] true)).1.lines.length = 1 ∧
    (fireNewStream (discardRun (execOps (mkRL 1 "motor" ["det"] ["primary"])
      [Op.add (Run.mk 1 1 [] true) false]).1 1).1
      (Run.mk 1 1 ["primary"] true)).2 = none := by
  decide

/-- C1, counterexample: starting from a fresh `RecentLines` with
`max_runs = 1`, adding one run whose stream is present and then a second
run whose required stream is absent leaves both runs tracked with nothing
pinned: `len(runs) = 2 > max_runs + len(pinned) = 1`, because
`_on_run_added` defers `_add_lines` (and hence `_cull_runs`) until the
stream arrives. The invariant as claimed — including adds of runs whose
required streams are not yet available — is false. -/
theorem capacity_invariant_counterexample :
    let res := execOps (mkRL 1 "motor" ["det"] ["primary"])
      [Op.add (Run.mk 1 1 ["primary"] false) false,
       Op.add (Run.mk 2 2 [] false) false]
    res.2 = none ∧ res.1.runs.length = 2 ∧ res.1.maxRuns = 1 ∧
    res.1.pinned.length = 0 ∧
    ¬ (res.1.runs.length ≤ res.1.maxRuns + res.1.pinned.length) := by
  decide

/-- C1 (amended): for every sequence of `RecentLines` steps — `add_run`
with or without pinning, `discard_run`, `max_runs` assignment, and run
notifications — starting from a well-formed state, **provided** every
added run already carries its required streams (so activation, and with
it `_cull_runs`, happens inside the add) and `max_runs` is always
at least 1, every step returns without raising and
`len(runs) ≤ max_runs + len(pinned)` holds after each step. An `add_run`
whose run lacks a required stream defers culling and can violate the
bound (see the counterexample). -/
theorem capacity_invariant_amended (s : RLState) (ops : List Op)
    (hs : GoodState s) (hops : ∀ op ∈ ops, OpSafe s.needsStreams op) :
    (execOps s ops).1.runs.length
      ≤ (execOps s ops).1.maxRuns + (execOps s ops).1.pinned.length ∧
    (execOps s ops).2 = none := by
  obtain ⟨hg, he, _⟩ := execOps_good ops s hs hops
  exact ⟨hg.1, he⟩

/-- Witness for the amended C1 at a concrete model and step sequence. -/
theorem capacity_invariant_amended_witness :
    (execOps (mkRL 2 "motor" ["det"] ["primary"])
      [Op.add (Run.mk 1 1 ["primary"] false) true,
       Op.add (Run.mk 2 2 ["primary"] false) false,
       Op.add (Run.mk 3 3 ["primary"] false) false,
       Op.setMax 1, Op.discard 2,
       Op.add (Run.mk 4 4 ["primary"] true) false,
       Op.completed 4]).1.runs.length
      ≤ (execOps (mkRL 2 "motor" ["det"] ["primary"])
      [Op.add (Run.mk 1 1 ["primary"] false) true,
       Op.add (Run.mk 2 2 ["primary"] false) false,
       Op.add (Run.mk 3 3 ["primary"] false) false,
       Op.setMax 1, Op.discard 2,
       Op.add (Run.mk 4 4 ["primary"] true) false,
       Op.completed 4]).1.maxRuns
        + (execOps (mkRL 2 "motor" ["det"] ["primary"])
      [Op.add (Run.mk 1 1 ["primary"] false) true,
       Op.add (Run.mk 2 2 ["primary"] false) false,
       Op.add (Run.mk 3 3 ["primary"] false) false,
       Op.setMax 1, Op.discard 2,
       Op.add (Run.mk 4 4 ["primary"] true) false,
       Op.completed 4]).1.pinned.length ∧
    (execOps (mkRL 2 "motor" ["det"] ["primary"])
      [Op.add (Run.mk 1 1 ["primary"] false) true,
       Op.add (Run.mk 2 2 ["primary"] false) false,
       Op.add (Run.mk 3 3 ["primary"] false) false,
       Op.setMax 1, Op.discard 2,
       Op.add (Run.mk 4 4 ["primary"] true) false,
       Op.completed 4]).2 = none :=
  capacity_invariant_amended (mkRL 2 "motor" ["det"] ["primary"])
    [Op.add (Run.mk 1 1 ["primary"] false) true,
     Op.add (Run.mk 2 2 ["primary"] false) false,
     Op.add (Run.mk 3 3 ["primary"] false) false,
     Op.setMax 1, Op.discard 2,
     Op.add (Run.mk 4 4 ["primary"] true) false,
     Op.completed 4]
    (by decide)
    (by decide)

/-- C2, counterexample: a live run with two y-expressions gets two lines,
both drawn with the sentinel color `"black"`; firing its single
completion notification advances the shared palette once **per line**
(`next(self._color_cycle)` sits inside the per-line loop of
`_on_run_complete`), so the cycle index moves from 0 to 2 — not by the
claimed single step per completion event. -/
theorem completion_recolor_counterexample :
    let s0 := mkRL 1 "motor" ["y1", "y2"] ["primary"]
    let res := execOps s0 [Op.add (Run.mk 1 1 ["primary"] true) false,
      Op.completed 1]
    ((execOps s0 [Op.add (Run.mk 1 1 ["primary"] true) false]).1.lines.map
      Line.color) = ["black", "black"] ∧
    ((execOps s0 [Op.add (Run.mk 1 1 ["primary"] true) false]).1.colorIdx = 0) ∧
    res.2 = none ∧
    (res.1.lines.map Line.color) = ["C0", "C1"] ∧
    res.1.colorIdx = 2 ∧
    ¬ res.1.colorIdx = 1 := by
  decide

/-- C8: `Image._transform` collapses any array of more than two dimensions
by repeatedly taking the slice at index `shape[0] // 2` along the leading
axis until exactly two dimensions remain; in particular an input of shape
`(4, 5, 6)` yields the `(5, 6)` slice at index `2 = 4 // 2` along axis 0 —
a single slice, no averaging. -/
theorem image_middle_slice_collapse {α : Type} (a : NArr α)
    (h : 2 < a.shape.length) :
    imageTransform a = middleSlice^[a.shape.length - 2] a ∧
    (a.shape = [4, 5, 6] →
      imageTransform a = sliceAt (4 / 2) a ∧
      (imageTransform a).shape = [5, 6]) := by
  constructor
  · have hlen : a.shape.length = (a.shape.length - 2) + 2 := by omega
    exact imageTransformGo_eq_iterate (a.shape.length - 2) a.shape.length a
      hlen (by omega)
  · intro hsh
    obtain ⟨sh, fl⟩ := a
    simp only at hsh
    subst hsh
    exact ⟨rfl, rfl⟩

/-- Witness for C8 at a concrete three-dimensional array. -/
theorem image_middle_slice_collapse_witness :
    2 < (NArr.mk [4, 5, 6] ([] : List Int)).shape.length ∧
    (imageTransform (NArr.mk [4, 5, 6] ([] : List Int))
      = middleSlice^[(NArr.mk [4, 5, 6] ([] : List Int)).shape.length - 2]
          (NArr.mk [4, 5, 6] ([] : List Int)) ∧
     ((NArr.mk [4, 5, 6] ([] : List Int)).shape = [4, 5, 6] →
      imageTransform (NArr.mk [4, 5, 6] ([] : List Int))
        = sliceAt (4 / 2) (NArr.mk [4, 5, 6] ([] : List Int)) ∧
      (imageTransform (NArr.mk [4, 5, 6] ([] : List Int))).shape = [5, 6])) :=
  ⟨by decide, image_middle_slice_collapse (NArr.mk [4, 5, 6] ([] : List Int))
    (by decide)⟩

/-- C6: starting from a fresh `RecentLines` with `max_runs = m ≥ 1` (and at
least one y-expression), adding distinct runs whose required streams are
all present leaves the registry holding exactly the most recently added
`m` run uids, in arrival order: for `N` adds the survivors are the last
`min(N, m)` uids, i.e. the input uid list with its first `N - m` entries
dropped. -/
theorem fifo_eviction (m : Nat) (x : String) (ys needs : List String)
    (rs : List Run) (hm : 1 ≤ m) (hys : 1 ≤ ys.length)
    (hstr : ∀ r ∈ rs, needsSubset needs r.streams = true)
    (hnd : (rs.map Run.uid).Nodup) :
    (execOps (mkRL m x ys needs) (rs.map (fun r => Op.add r false))).2
      = none ∧
    (execOps (mkRL m x ys needs) (rs.map (fun r => Op.add r false))).1.runs
      = (rs.map Run.uid).drop (rs.length - m) := by
  obtain ⟨he, hr⟩ := addSeq_noPin rs (mkRL m x ys needs) rfl
    (by show ([] : List Nat).Nodup; exact List.nodup_nil)
    hm hys
    (by show ([] : List Nat).length ≤ m; simp)
    (by intro u hu; cases hu)
    (by intro r hrr; exact hstr r hrr)
    (by intro r hrr hc; cases hc)
    hnd
  refine ⟨he, ?_⟩
  rw [hr]
  simp [mkRL]

/-- Witness for C6: two runs through a one-slot model keep only the second. -/
theorem fifo_eviction_witness :
    (execOps (mkRL 1 "motor" ["det"] ["primary"])
      ([Run.mk 1 1 ["primary"] false, Run.mk 2 2 ["primary"] false].map
        (fun r => Op.add r false))).2 = none ∧
    (execOps (mkRL 1 "motor" ["det"] ["primary"])
      ([Run.mk 1 1 ["primary"] false, Run.mk 2 2 ["primary"] false].map
        (fun r => Op.add r false))).1.runs
      = ([Run.mk 1 1 ["primary"] false,
          Run.mk 2 2 ["primary"] false].map Run.uid).drop
          ([Run.mk 1 1 ["primary"] false,
            Run.mk 2 2 ["primary"] false].length - 1) :=
  fifo_eviction 1 "motor" ["det"] ["primary"]
    [Run.mk 1 1 ["primary"] false, Run.mk 2 2 ["primary"] false]
    (by decide) (by decide) (by decide) (by decide)

/-- C7: a pinned, tracked run survives every sequence of steps that does
not explicitly discard it — additions (pinned or not), discards of other
runs, `max_runs` assignments and event deliveries, whether or not a step
raises; and when every tracked run is pinned, `_cull_runs` removes
nothing and returns the registry unchanged even if it exceeds
`max_runs`. -/
theorem pin_exemption :
    (∀ (s : RLState) (uid : Nat) (ops : List Op),
      uid ∈ s.pinned → uid ∈ s.runs →
      (∀ op ∈ ops, op ≠ Op.discard uid) →
      uid ∈ (execOps s ops).1.pinned ∧ uid ∈ (execOps s ops).1.runs) ∧
    (∀ s : RLState, s.runs.Nodup → (∀ u ∈ s.runs, u ∈ s.pinned) →
      cullRuns s = (s, none)) := by
  constructor
  · exact fun s uid ops hp hr hops => pinned_persists_exec ops s uid hp hr hops
  · intro s hnd hall
    apply cull_noop
    have := nodup_length_le_bw hnd hall
    omega

/-- Witness for C7: a pinned run outlives three further additions past
capacity, and an all-pinned over-capacity registry is left untouched. -/
theorem pin_exemption_witness :
    (7 ∈ (execOps demoPinned7
        [Op.add (Run.mk 8 8 ["primary"] false) false,
         Op.add (Run.mk 9 9 ["primary"] false) false,
         Op.setMax 1]).1.pinned ∧
     7 ∈ (execOps demoPinned7
        [Op.add (Run.mk 8 8 ["primary"] false) false,
         Op.add (Run.mk 9 9 ["primary"] false) false,
         Op.setMax 1]).1.runs) ∧
    cullRuns demoAllPinned = (demoAllPinned, none) :=
  ⟨pin_exemption.1 demoPinned7 7
      [Op.add (Run.mk 8 8 ["primary"] false) false,
       Op.add (Run.mk 9 9 ["primary"] false) false,
       Op.setMax 1]
      (by decide) (by decide) (by decide),
   pin_exemption.2 demoAllPinned (by decide) (by decide)⟩

/-- C9: configuration errors surface synchronously at the violating call:
`RecentLines.__init__` raises `ValueError` when `ys` is a single string;
the `RasteredImage.x_positive` setter raises `ValueError` for any value
outside `{"right", "left"}` and the `y_positive` setter for any value
outside `{"up", "down"}` — in both setters the raise happens before the
stored orientation or the axis limits are touched, so the state returned
with the error is exactly the state passed in. -/
theorem config_errors_immediate :
    (∀ (m : Nat) (x sY : String) (needs : List String),
      RLInit m x (Sum.inl sY) needs = Except.error PyErr.valueError) ∧
    (∀ (s : RIState) (v : String), v ≠ "right" → v ≠ "left" →
      xPositiveSet s v = (s, some PyErr.valueError)) ∧
    (∀ (s : RIState) (w : String), w ≠ "up" → w ≠ "down" →
      yPositiveSet s w = (s, some PyErr.valueError)) := by
  refine ⟨fun m x sY needs => rfl, ?_, ?_⟩
  · intro s v h1 h2
    have hc : ¬ (v = "right" ∨ v = "left") := by
      rintro (h | h)
      · exact h1 h
      · exact h2 h
    unfold xPositiveSet
    rw [if_pos hc]
  · intro s w h1 h2
    have hc : ¬ (w = "up" ∨ w = "down") := by
      rintro (h | h)
      · exact h1 h
      · exact h2 h
    unfold yPositiveSet
    rw [if_pos hc]

/-- Witness for C9 at concrete invalid inputs. -/
theorem config_errors_immediate_witness :
    RLInit 3 "motor" (Sum.inl "det") ["primary"]
      = Except.error PyErr.valueError ∧
    xPositiveSet (RIState.mk "f" (2, 3) "right" "up" (some (0, 1))
      (some (0, 1))) "sideways"
      = (RIState.mk "f" (2, 3) "right" "up" (some (0, 1)) (some (0, 1)),
         some PyErr.valueError) ∧
    yPositiveSet (RIState.mk "f" (2, 3) "right" "up" (some (0, 1))
      (some (0, 1))) "left"
      = (RIState.mk "f" (2, 3) "right" "up" (some (0, 1)) (some (0, 1)),
         some PyErr.valueError) :=
  ⟨config_errors_immediate.1 3 "motor" "det" ["primary"],
   config_errors_immediate.2.1 _ "sideways" (by decide) (by decide),
   config_errors_immediate.2.2 _ "left" (by decide) (by decide)⟩

theorem xPositive_roundtrip_aux (fn : String) (shp : Nat × Nat)
    (xst yst : String) (yl : Option (ℚ × ℚ)) (a b : ℚ) (v : String)
    (hab : a ≠ b) (hv : v = "right" ∨ v = "left") :
    (xPositiveSet (RIState.mk fn shp xst yst (some (a, b)) yl) v).2 = none ∧
    (xPositiveGet
      (xPositiveSet (RIState.mk fn shp xst yst (some (a, b)) yl) v).1).1
      = v := by
  rcases hv with rfl | rfl <;> rcases lt_trichotomy a b with h | h | h <;>
    first
      | exact absurd h hab
      | simp [xPositiveSet, xPositiveGet, h, le_of_lt h, lt_asymm h]

theorem yPositive_roundtrip_aux (fn : String) (shp : Nat × Nat)
    (xst yst : String) (xl : Option (ℚ × ℚ)) (a b : ℚ) (v : String)
    (hab : a ≠ b) (hv : v = "up" ∨ v = "down") :
    (yPositiveSet (RIState.mk fn shp xst yst xl (some (a, b))) v).2 = none ∧
    (yPositiveGet
      (yPositiveSet (RIState.mk fn shp xst yst xl (some (a, b))) v).1).1
      = v := by
  rcases hv with rfl | rfl <;> rcases lt_trichotomy a b with h | h | h <;>
    first
      | exact absurd h hab
      | simp [yPositiveSet, yPositiveGet, h, le_of_lt h, lt_asymm h]

/-- C10: with distinct x-limits, setting `x_positive` to either valid value
and reading it back returns that value (and the setter raises nothing);
the getter's result is determined solely by the order of the current
limits — `"left"` exactly when they are strictly decreasing — and it
overwrites the stored `_x_positive` attribute with that derived value.
The same holds for `y_positive` with `"up"`/`"down"` and the y-limits. -/
theorem orientation_roundtrip :
    (∀ (s : RIState) (a b : ℚ) (v : String), s.xLimits = some (a, b) →
      a ≠ b → (v = "right" ∨ v = "left") →
      (xPositiveSet s v).2 = none ∧
      (xPositiveGet (xPositiveSet s v).1).1 = v) ∧
    (∀ (s : RIState) (a b : ℚ), s.xLimits = some (a, b) →
      (xPositiveGet s).1 = (if a > b then "left" else "right") ∧
      (xPositiveGet s).2.1.xPositiveStored = (xPositiveGet s).1 ∧
      (xPositiveGet s).2.2 = none) ∧
    (∀ (s : RIState) (a b : ℚ) (v : String), s.yLimits = some (a, b) →
      a ≠ b → (v = "up" ∨ v = "down") →
      (yPositiveSet s v).2 = none ∧
      (yPositiveGet (yPositiveSet s v).1).1 = v) ∧
    (∀ (s : RIState) (a b : ℚ), s.yLimits = some (a, b) →
      (yPositiveGet s).1 = (if a > b then "down" else "up") ∧
      (yPositiveGet s).2.1.yPositiveStored = (yPositiveGet s).1 ∧
      (yPositiveGet s).2.2 = none) := by
  refine ⟨?_, ?_, ?_, ?_⟩
  · intro s a b v hlim hab hv
    obtain ⟨fn, shp, xst, yst, xlim, ylim⟩ := s
    simp only at hlim
    subst hlim
    exact xPositive_roundtrip_aux fn shp xst yst ylim a b v hab hv
  · intro s a b hlim
    obtain ⟨fn, shp, xst, yst, xlim, ylim⟩ := s
    simp only at hlim
    subst hlim
    by_cases h : a > b <;> simp [xPositiveGet, h]
  · intro s a b v hlim hab hv
    obtain ⟨fn, shp, xst, yst, xlim, ylim⟩ := s
    simp only at hlim
    subst hlim
    exact yPositive_roundtrip_aux fn shp xst yst xlim a b v hab hv
  · intro s a b hlim
    obtain ⟨fn, shp, xst, yst, xlim, ylim⟩ := s
    simp only at hlim
    subst hlim
    by_cases h : a > b <;> simp [yPositiveGet, h]

/-- Witness for C10 at concrete limits and orientation values. -/
theorem orientation_roundtrip_witness :
    ((xPositiveSet (RIState.mk "f" (2, 3) "right" "up" (some (0, 1))
        (some (0, 1))) "left").2 = none ∧
     (xPositiveGet (xPositiveSet (RIState.mk "f" (2, 3) "right" "up"
        (some (0, 1)) (some (0, 1))) "left").1).1 = "left") ∧
    ((xPositiveGet (RIState.mk "f" (2, 3) "left" "up" (some (0, 1))
        (some (0, 1)))).1 = (if (0 : ℚ) > 1 then "left" else "right") ∧
     (xPositiveGet (RIState.mk "f" (2, 3) "left" "up" (some (0, 1))
        (some (0, 1)))).2.1.xPositiveStored
        = (xPositiveGet (RIState.mk "f" (2, 3) "left" "up" (some (0, 1))
          (some (0, 1)))).1 ∧
     (xPositiveGet (RIState.mk "f" (2, 3) "left" "up" (some (0, 1))
        (some (0, 1)))).2.2 = none) ∧
    ((yPositiveSet (RIState.mk "f" (2, 3) "right" "up" (some (0, 1))
        (some (2, 1))) "down").2 = none ∧
     (yPositiveGet (yPositiveSet (RIState.mk "f" (2, 3) "right" "up"
        (some (0, 1)) (some (2, 1))) "down").1).1 = "down") ∧
    ((yPositiveGet (RIState.mk "f" (2, 3) "right" "up" (some (0, 1))
        (some (2, 1)))).1 = (if (2 : ℚ) > 1 then "down" else "up") ∧
     (yPositiveGet (RIState.mk "f" (2, 3) "right" "up" (some (0, 1))
        (some (2, 1)))).2.1.yPositiveStored
        = (yPositiveGet (RIState.mk "f" (2, 3) "right" "up" (some (0, 1))
          (some (2, 1)))).1 ∧
     (yPositiveGet (RIState.mk "f" (2, 3) "right" "up" (some (0, 1))
        (some (2, 1)))).2.2 = none) :=
  ⟨orientation_roundtrip.1 (RIState.mk "f" (2, 3) "right" "up" (some (0, 1))
      (some (0, 1))) 0 1 "left" rfl (by norm_num) (Or.inr rfl),
   orientation_roundtrip.2.1 (RIState.mk "f" (2, 3) "left" "up" (some (0, 1))
      (some (0, 1))) 0 1 rfl,
   orientation_roundtrip.2.2.1 (RIState.mk "f" (2, 3) "right" "up"
      (some (0, 1)) (some (2, 1))) 2 1 "down" rfl (by norm_num) (Or.inr rfl),
   orientation_roundtrip.2.2.2 (RIState.mk "f" (2, 3) "right" "up"
      (some (0, 1)) (some (2, 1))) 2 1 rfl⟩

/-- C4: adding a run whose available streams do not cover `needs_streams`
creates no line elements and leaves a `new_stream` subscription in place;
stream notifications that still do not satisfy `needs_streams` change
nothing; the first notification after which `needs_streams` is covered
creates exactly `len(ys)` line elements and cancels the subscription, so
any further stream notification for that run is a no-op and no further
elements are ever created for it. -/
theorem deferred_activation (s : RLState) (r : Run)
    (hnostr : needsSubset s.needsStreams r.streams = false)
    (hfreshRun : r.uid ∉ s.runs)
    (hfreshLines : linesFor s r.uid = [])
    (hcap : s.runs.length + 1 ≤ s.maxRuns + s.pinned.length) :
    (addRun s r false).2 = none ∧
    (addRun s r false).1.lines = s.lines ∧
    linesFor (addRun s r false).1 r.uid = [] ∧
    r.uid ∈ (addRun s r false).1.streamSubs ∧
    (∀ r' : Run, r'.uid = r.uid →
      needsSubset s.needsStreams r'.streams = false →
      fireNewStream (addRun s r false).1 r' = ((addRun s r false).1, none)) ∧
    (∀ r' : Run, r'.uid = r.uid →
      needsSubset s.needsStreams r'.streams = true →
      (fireNewStream (addRun s r false).1 r').2 = none ∧
      (linesFor (fireNewStream (addRun s r false).1 r').1 r.uid).length
        = s.ys.length ∧
      r.uid ∉ (fireNewStream (addRun s r false).1 r').1.streamSubs ∧
      (∀ r'' : Run, r''.uid = r.uid →
        fireNewStream (fireNewStream (addRun s r false).1 r').1 r''
          = ((fireNewStream (addRun s r false).1 r').1, none))) := by
  have haddeq : addRun s r false
      = ({ s with
            runs := s.runs ++ [r.uid],
            streamSubs := setInsert s.streamSubs r.uid }, none) := by
    unfold addRun
    simp only [Bool.false_eq_true, if_false]
    rw [if_neg hfreshRun]
    unfold onRunAdded
    simp only []
    rw [if_neg (by rw [hnostr]; exact Bool.false_ne_true)]
  rw [haddeq]
  simp only []
  refine ⟨by trivial, by trivial, ?_, ?_, ?_, ?_⟩
  · exact hfreshLines
  · exact self_mem_setInsert
  · intro r' hru hno
    unfold fireNewStream
    rw [if_pos (by rw [hru]; exact self_mem_setInsert)]
    rw [if_neg (by
      show ¬ needsSubset s.needsStreams r'.streams = true
      rw [hno]
      exact Bool.false_ne_true)]
  · intro r' hru hyes
    set S1 : RLState :=
      { s with
        runs := s.runs ++ [r.uid],
        streamSubs := setInsert s.streamSubs r.uid } with hS1
    have hnoop : cullRuns S1 = (S1, none) := by
      apply cull_noop
      show ¬ (s.runs ++ [r.uid]).length > s.maxRuns + s.pinned.length
      simp only [List.length_append, List.length_cons, List.length_nil]
      omega
    have hal : addLines S1 r' = (addLinesLoop r' s.ys S1, none) := by
      unfold addLines
      rw [hnoop]
      rfl
    have hfire : fireNewStream S1 r'
        = ({ addLinesLoop r' s.ys S1 with
            streamSubs := setRemove (addLinesLoop r' s.ys S1).streamSubs
              r'.uid }, none) := by
      unfold fireNewStream
      rw [if_pos (by rw [hru]; exact self_mem_setInsert)]
      rw [if_pos hyes]
      rw [hal]
    rw [hfire]
    obtain ⟨ir, ip, im, ix, iy, inn, iss, inu, ici, icsMono, icsLive, icsDead,
        ilk, ihasMono, ientry, ihasUid, newLines, inl, inlm, inlp⟩ :=
      addLinesLoop_spec r' s.ys S1
    refine ⟨rfl, ?_, ?_, ?_⟩
    · show ((addLinesLoop r' s.ys S1).lines.filter
        (fun l => l.runUid = r.uid)).length = s.ys.length
      rw [inl]
      rw [List.filter_append]
      have h1 : S1.lines.filter (fun l => decide (l.runUid = r.uid)) = [] :=
        hfreshLines
      rw [h1]
      have h2 : newLines.filter (fun l => decide (l.runUid = r.uid))
          = newLines := by
        apply List.filter_eq_self.mpr
        intro l hl
        have := (inlp l hl).1
        rw [this, hru]
        simp
      rw [h2]
      have h3 : newLines.length = (newLines.map Line.uuid).length :=
        (List.length_map newLines Line.uuid).symm
      rw [List.nil_append, h3, inlm, List.length_range']
    · intro hmem
      have := (mem_setRemove.mp hmem).2
      rw [hru] at this
      exact this rfl
    · intro r'' hr''
      unfold fireNewStream
      rw [if_neg (by
        intro hc
        have := (mem_setRemove.mp hc).2
        rw [hr'', hru] at this
        exact this rfl)]

/-- C2 (amended): every line created for a live, not-yet-completed run
starts with the sentinel color `"black"`; firing the run's completion
notification updates every line indexed under the run's uid to a concrete
palette color (`C0`–`C9`, never the sentinel), and the shared cyclic
palette advances once **per line** — `len(ys)` draws for one completion
event — because `next(self._color_cycle)` sits inside the per-line loop
of `_on_run_complete`, not outside it as the original claim stated. -/
theorem completion_recolor_amended (s : RLState) (r : Run)
    (hlive : r.live = true)
    (hstr : needsSubset s.needsStreams r.streams = true)
    (hfreshRun : r.uid ∉ s.runs)
    (hfreshLines : linesFor s r.uid = [])
    (hfreshEntry : rtlLookup s.runsToLines r.uid = none)
    (hcap : s.runs.length + 1 ≤ s.maxRuns + s.pinned.length)
    (hys : 1 ≤ s.ys.length) :
    (addRun s r false).2 = none ∧
    (linesFor (addRun s r false).1 r.uid).length = s.ys.length ∧
    (∀ l ∈ linesFor (addRun s r false).1 r.uid, l.color = "black") ∧
    (fireCompleted (addRun s r false).1 r.uid).2 = none ∧
    (fireCompleted (addRun s r false).1 r.uid).1.colorIdx
      = (addRun s r false).1.colorIdx + s.ys.length ∧
    (linesFor (fireCompleted (addRun s r false).1 r.uid).1 r.uid).length
      = s.ys.length ∧
    (∀ l ∈ linesFor (fireCompleted (addRun s r false).1 r.uid).1 r.uid,
      (∃ c, l.color = colorName c) ∧ l.color ≠ "black") := by
  have haddeq : addRun s r false
      = addLines { s with runs := s.runs ++ [r.uid] } r := by
    unfold addRun
    simp only [Bool.false_eq_true, if_false]
    rw [if_neg hfreshRun]
    unfold onRunAdded
    simp only []
    rw [if_pos hstr]
  set S1 : RLState := { s with runs := s.runs ++ [r.uid] } with hS1def
  have hnoop : cullRuns S1 = (S1, none) := by
    apply cull_noop
    show ¬ (s.runs ++ [r.uid]).length > s.maxRuns + s.pinned.length
    simp only [List.length_append, List.length_cons, List.length_nil]
    omega
  have hal : addLines S1 r = (addLinesLoop r s.ys S1, none) := by
    unfold addLines
    rw [hnoop]
    rfl
  obtain ⟨ir, ip, im, ix, iy, inn, iss, inu, ici, icsMono, icsLive, icsDead,
      ilk, ihasMono, ientry, ihasUid, newLines, inl, inlm, inlp⟩ :=
    addLinesLoop_spec r s.ys S1
  set T := addLinesLoop r s.ys S1 with hT
  have hTeq : addRun s r false = (T, none) := by rw [haddeq, hal]
  rw [hTeq]
  simp only []
  have hysne : s.ys ≠ [] := by
    intro hc
    rw [hc] at hys
    simp at hys
  have hlinesT : linesFor T r.uid = newLines := by
    show T.lines.filter (fun l => l.runUid = r.uid) = newLines
    rw [inl, List.filter_append]
    have h1 : S1.lines.filter (fun l => decide (l.runUid = r.uid)) = [] :=
      hfreshLines
    rw [h1, List.nil_append]
    apply List.filter_eq_self.mpr
    intro l hl
    rw [(inlp l hl).1]
    simp
  have hnewlen : newLines.length = s.ys.length := by
    rw [← List.length_map newLines Line.uuid, inlm, List.length_range']
  have hmemT : r.uid ∈ T.completeSubs := icsLive hlive hysne
  have hent0 : ∀ u ∈ (rtlLookup S1.runsToLines r.uid).getD [],
      u < S1.nextUuid := by
    show ∀ u ∈ (rtlLookup s.runsToLines r.uid).getD [], u < s.nextUuid
    rw [hfreshEntry]
    intro u hu
    cases hu
  have hentT := ientry hent0
  have hhasT := ihasUid hysne
  obtain ⟨e, he⟩ := Option.isSome_iff_exists.mp hhasT
  have heval : e = List.range' S1.nextUuid s.ys.length := by
    rw [he] at hentT
    simp only [Option.getD_some] at hentT
    rw [hentT]
    show (rtlLookup S1.runsToLines r.uid).getD [] ++ _ = _
    show (rtlLookup s.runsToLines r.uid).getD [] ++ _ = _
    rw [hfreshEntry]
    rfl
  have he' : rtlLookup T.runsToLines r.uid
      = some (List.range' S1.nextUuid s.ys.length) := by
    rw [he, heval]
  have hgd : rtlGetDefault T.runsToLines r.uid
      = (List.range' S1.nextUuid s.ys.length, T.runsToLines) :=
    rtlGetDefault_of_lookup he'
  have hfc : fireCompleted T r.uid
      = ((List.range' S1.nextUuid s.ys.length).foldl recolorOne T, none) := by
    unfold fireCompleted
    rw [if_pos hmemT]
    show ((rtlGetDefault T.runsToLines r.uid).1.foldl recolorOne
      { T with runsToLines := (rtlGetDefault T.runsToLines r.uid).2 }, none)
      = _
    rw [hgd]
  rw [hfc]
  simp only []
  have hany : ∀ u ∈ List.range' S1.nextUuid s.ys.length,
      T.lines.any (fun l => l.uuid = u) = true := by
    intro u hu
    rw [← inlm] at hu
    obtain ⟨l, hlmem, hlu⟩ := List.mem_map.mp hu
    apply List.any_eq_true.mpr
    refine ⟨l, ?_, by simp [hlu]⟩
    rw [inl]
    exact List.mem_append.mpr (Or.inr hlmem)
  obtain ⟨fr, fp, fm, fx, fy, fn, fss, fcs, fnu, frtl, fci, fpair, fline⟩ :=
    recolorFold_spec (List.range' S1.nextUuid s.ys.length) T hany
      (List.nodup_range' S1.nextUuid s.ys.length 1 (by omega))
  refine ⟨by trivial, ?_, ?_, by trivial, ?_, ?_, ?_⟩
  · rw [hlinesT, hnewlen]
  · intro l hl
    rw [hlinesT] at hl
    exact (inlp l hl).2.1 hlive
  · rw [fci, List.length_range']
  · have := filter_length_pair r.uid
      ((List.range' S1.nextUuid s.ys.length).foldl recolorOne T).lines
      T.lines fpair
    show (((List.range' S1.nextUuid s.ys.length).foldl recolorOne
      T).lines.filter (fun l => l.runUid = r.uid)).length = s.ys.length
    rw [this]
    show (linesFor T r.uid).length = s.ys.length
    rw [hlinesT, hnewlen]
  · intro l hl
    have hl' := List.mem_filter.mp hl
    have hlr : l.runUid = r.uid := by
      have := hl'.2
      simpa using this
    have hpairmem : (l.uuid, l.runUid) ∈ T.lines.map
        (fun l => (l.uuid, l.runUid)) := by
      rw [← fpair]
      exact List.mem_map.mpr ⟨l, hl'.1, rfl⟩
    obtain ⟨l2, hl2mem, hl2pair⟩ := List.mem_map.mp hpairmem
    have hl2u : l2.uuid = l.uuid := congrArg Prod.fst hl2pair
    have hl2r : l2.runUid = l.runUid := congrArg Prod.snd hl2pair
    have hl2new : l2 ∈ newLines := by
      rw [← hlinesT]
      apply List.mem_filter.mpr
      refine ⟨hl2mem, ?_⟩
      simp [hl2r, hlr]
    have huuid : l.uuid ∈ List.range' S1.nextUuid s.ys.length := by
      rw [← inlm]
      exact List.mem_map.mpr ⟨l2, hl2new, hl2u⟩
    obtain ⟨c, hc⟩ := (fline l hl'.1).1 huuid
    exact ⟨⟨c, hc⟩, by rw [hc]; exact colorName_ne_black c⟩

/-- Witness for C4 at a concrete model and run. -/
theorem deferred_activation_witness :
    (addRun (mkRL 2 "motor" ["det"] ["primary"]) (Run.mk 3 3 [] true)
      false).2 = none ∧
    (addRun (mkRL 2 "motor" ["det"] ["primary"]) (Run.mk 3 3 [] true)
      false).1.lines = (mkRL 2 "motor" ["det"] ["primary"]).lines ∧
    linesFor (addRun (mkRL 2 "motor" ["det"] ["primary"])
      (Run.mk 3 3 [] true) false).1 (Run.mk 3 3 [] true).uid = [] ∧
    (Run.mk 3 3 [] true).uid ∈ (addRun (mkRL 2 "motor" ["det"] ["primary"])
      (Run.mk 3 3 [] true) false).1.streamSubs ∧
    (∀ r' : Run, r'.uid = (Run.mk 3 3 [] true).uid →
      needsSubset (mkRL 2 "motor" ["det"] ["primary"]).needsStreams
        r'.streams = false →
      fireNewStream (addRun (mkRL 2 "motor" ["det"] ["primary"])
        (Run.mk 3 3 [] true) false).1 r'
        = ((addRun (mkRL 2 "motor" ["det"] ["primary"])
          (Run.mk 3 3 [] true) false).1, none)) ∧
    (∀ r' : Run, r'.uid = (Run.mk 3 3 [] true).uid →
      needsSubset (mkRL 2 "motor" ["det"] ["primary"]).needsStreams
        r'.streams = true →
      (fireNewStream (addRun (mkRL 2 "motor" ["det"] ["primary"])
        (Run.mk 3 3 [] true) false).1 r').2 = none ∧
      (linesFor (fireNewStream (addRun (mkRL 2 "motor" ["det"] ["primary"])
        (Run.mk 3 3 [] true) false).1 r').1 (Run.mk 3 3 [] true).uid).length
        = (mkRL 2 "motor" ["det"] ["primary"]).ys.length ∧
      (Run.mk 3 3 [] true).uid ∉ (fireNewStream
        (addRun (mkRL 2 "motor" ["det"] ["primary"])
          (Run.mk 3 3 [] true) false).1 r').1.streamSubs ∧
      (∀ r'' : Run, r''.uid = (Run.mk 3 3 [] true).uid →
        fireNewStream (fireNewStream
          (addRun (mkRL 2 "motor" ["det"] ["primary"])
            (Run.mk 3 3 [] true) false).1 r').1 r''
          = ((fireNewStream (addRun (mkRL 2 "motor" ["det"] ["primary"])
            (Run.mk 3 3 [] true) false).1 r').1, none))) :=
  deferred_activation (mkRL 2 "motor" ["det"] ["primary"])
    (Run.mk 3 3 [] true) (by decide) (by decide) (by decide) (by decide)

/-- Witness for the amended C2 at a concrete model with two
y-expressions. -/
theorem completion_recolor_amended_witness :
    (addRun (mkRL 2 "motor" ["y1", "y2"] ["primary"])
      (Run.mk 1 1 ["primary"] true) false).2 = none ∧
    (linesFor (addRun (mkRL 2 "motor" ["y1", "y2"] ["primary"])
      (Run.mk 1 1 ["primary"] true) false).1
      (Run.mk 1 1 ["primary"] true).uid).length
      = (mkRL 2 "motor" ["y1", "y2"] ["primary"]).ys.length ∧
    (∀ l ∈ linesFor (addRun (mkRL 2 "motor" ["y1", "y2"] ["primary"])
      (Run.mk 1 1 ["primary"] true) false).1
      (Run.mk 1 1 ["primary"] true).uid, l.color = "black") ∧
    (fireCompleted (addRun (mkRL 2 "motor" ["y1", "y2"] ["primary"])
      (Run.mk 1 1 ["primary"] true) false).1
      (Run.mk 1 1 ["primary"] true).uid).2 = none ∧
    (fireCompleted (addRun (mkRL 2 "motor" ["y1", "y2"] ["primary"])
      (Run.mk 1 1 ["primary"] true) false).1
      (Run.mk 1 1 ["primary"] true).uid).1.colorIdx
      = (addRun (mkRL 2 "motor" ["y1", "y2"] ["primary"])
        (Run.mk 1 1 ["primary"] true) false).1.colorIdx
        + (mkRL 2 "motor" ["y1", "y2"] ["primary"]).ys.length ∧
    (linesFor (fireCompleted (addRun (mkRL 2 "motor" ["y1", "y2"] ["primary"])
      (Run.mk 1 1 ["primary"] true) false).1
      (Run.mk 1 1 ["primary"] true).uid).1
      (Run.mk 1 1 ["primary"] true).uid).length
      = (mkRL 2 "motor" ["y1", "y2"] ["primary"]).ys.length ∧
    (∀ l ∈ linesFor (fireCompleted
      (addRun (mkRL 2 "motor" ["y1", "y2"] ["primary"])
        (Run.mk 1 1 ["primary"] true) false).1
      (Run.mk 1 1 ["primary"] true).uid).1
      (Run.mk 1 1 ["primary"] true).uid,
      (∃ c, l.color = colorName c) ∧ l.color ≠ "black") :=
  completion_recolor_amended (mkRL 2 "motor" ["y1", "y2"] ["primary"])
    (Run.mk 1 1 ["primary"] true) (by decide) (by decide) (by decide)
    (by decide) (by decide) (by decide) (by decide)
